import Mathlib

/-
Verification of pylgrim, file proto/coord/ecef.py: WGS84 coordinate
transforms (geodetic <-> ECEF, ECEF -> spherical, ENU projection).

Scalar model: the Python code computes with IEEE doubles (numpy float64).
We model a double as an exact real number extended with the special values
+inf, -inf and NaN, written as the type `FP` below.  Finite arithmetic is
exact (no rounding, no overflow, no gradual underflow, no signed zero);
the special values follow the IEEE rules that numpy implements:
division of a nonzero finite number by zero yields a signed infinity
(numpy warns and continues, it does not raise), 0/0 and 0*inf yield NaN,
NaN propagates through every operation, and every ordered comparison
with NaN is false.  Python truthiness of a float (`x or 1.`) is `x != 0.0`,
so NaN and the infinities are truthy.  These conventions are exactly what
the claims about degenerate inputs depend on.
-/

namespace Ecef

/-- Model of an IEEE double: an exact real, a signed infinity, or NaN. -/
inductive FP where
  | fin : ℝ → FP
  | pinf : FP
  | ninf : FP
  | nan : FP

namespace FP

/-- IEEE addition on the model. -/
noncomputable def add : FP → FP → FP
  | fin x, fin y => fin (x + y)
  | fin _, pinf => pinf
  | fin _, ninf => ninf
  | fin _, nan => nan
  | pinf, fin _ => pinf
  | pinf, pinf => pinf
  | pinf, ninf => nan
  | pinf, nan => nan
  | ninf, fin _ => ninf
  | ninf, pinf => nan
  | ninf, ninf => ninf
  | ninf, nan => nan
  | nan, _ => nan

/-- IEEE negation on the model. -/
noncomputable def neg : FP → FP
  | fin x => fin (-x)
  | pinf => ninf
  | ninf => pinf
  | nan => nan

open Classical in
/-- IEEE multiplication on the model; `0 * inf = NaN`. -/
noncomputable def mul : FP → FP → FP
  | fin x, fin y => fin (x * y)
  | fin x, pinf => if x = 0 then nan else if 0 < x then pinf else ninf
  | fin x, ninf => if x = 0 then nan else if 0 < x then ninf else pinf
  | fin _, nan => nan
  | pinf, fin y => if y = 0 then nan else if 0 < y then pinf else ninf
  | pinf, pinf => pinf
  | pinf, ninf => ninf
  | pinf, nan => nan
  | ninf, fin y => if y = 0 then nan else if 0 < y then ninf else pinf
  | ninf, pinf => ninf
  | ninf, ninf => pinf
  | ninf, nan => nan
  | nan, _ => nan

open Classical in
/-- IEEE division on the model.  A zero denominator is the (unsigned, hence
positive) zero of the model, so `x / 0` is the infinity with the sign of `x`,
and `0 / 0` is NaN.  This is what numpy float64 division does (with a runtime
warning, not an exception). -/
noncomputable def div : FP → FP → FP
  | fin x, fin y =>
      if y = 0 then (if x = 0 then nan else if 0 < x then pinf else ninf)
      else fin (x / y)
  | fin _, pinf => fin 0
  | fin _, ninf => fin 0
  | fin _, nan => nan
  | pinf, fin y => if 0 ≤ y then pinf else ninf
  | pinf, pinf => nan
  | pinf, ninf => nan
  | pinf, nan => nan
  | ninf, fin y => if 0 ≤ y then ninf else pinf
  | ninf, pinf => nan
  | ninf, ninf => nan
  | ninf, nan => nan
  | nan, _ => nan

noncomputable instance : Add FP := ⟨add⟩

noncomputable instance : Neg FP := ⟨neg⟩

noncomputable instance : Mul FP := ⟨mul⟩

noncomputable instance : Div FP := ⟨div⟩

/-- IEEE subtraction, `x - y = x + (-y)` (the special cases agree). -/
noncomputable instance : Sub FP := ⟨fun x y => x + (-y)⟩

/-- IEEE absolute value. -/
noncomputable def abs : FP → FP
  | fin x => fin |x|
  | pinf => pinf
  | ninf => pinf
  | nan => nan

open Classical in
/-- numpy sqrt: NaN on negative (finite or -inf) arguments. -/
noncomputable def sqrt : FP → FP
  | fin x => if x < 0 then nan else fin (Real.sqrt x)
  | pinf => pinf
  | ninf => nan
  | nan => nan

open Classical in
/-- Model of `np.power(x, -0.5)`: `1/sqrt x` for positive finite `x`,
`+inf` at zero, `+0` at both infinities, NaN on finite negatives and NaN. -/
noncomputable def powNegHalf : FP → FP
  | fin x => if x < 0 then nan else if x = 0 then pinf else fin (1 / Real.sqrt x)
  | pinf => fin 0
  | ninf => fin 0
  | nan => nan

/-- IEEE `<`: false whenever an operand is NaN. -/
def lt : FP → FP → Prop
  | fin x, fin y => x < y
  | fin _, pinf => True
  | fin _, ninf => False
  | fin _, nan => False
  | pinf, _ => False
  | ninf, fin _ => True
  | ninf, pinf => True
  | ninf, ninf => False
  | ninf, nan => False
  | nan, _ => False

open Classical in
/-- Model of `np.sign`. -/
noncomputable def sign : FP → FP
  | fin x => fin (if x < 0 then -1 else if x = 0 then 0 else 1)
  | pinf => fin 1
  | ninf => fin (-1)
  | nan => nan

/-- Real two-argument arctangent (atan2 of the C library), on the convention
that the model's zero is IEEE +0. -/
noncomputable def atan2R (y x : ℝ) : ℝ :=
  if 0 < x then Real.arctan (y / x)
  else if x < 0 then
    (if 0 ≤ y then Real.arctan (y / x) + Real.pi else Real.arctan (y / x) - Real.pi)
  else
    (if 0 < y then Real.pi / 2 else if y < 0 then -(Real.pi / 2) else 0)

open Classical in
/-- IEEE atan2 on the model (`math.atan2` / `np.math.atan2`). -/
noncomputable def atan2 : FP → FP → FP
  | fin y, fin x => fin (atan2R y x)
  | fin _, pinf => fin 0
  | fin y, ninf => if 0 ≤ y then fin Real.pi else fin (-Real.pi)
  | fin _, nan => nan
  | pinf, fin _ => fin (Real.pi / 2)
  | pinf, pinf => fin (Real.pi / 4)
  | pinf, ninf => fin (3 * Real.pi / 4)
  | pinf, nan => nan
  | ninf, fin _ => fin (-(Real.pi / 2))
  | ninf, pinf => fin (-(Real.pi / 4))
  | ninf, ninf => fin (-(3 * Real.pi / 4))
  | ninf, nan => nan
  | nan, _ => nan

/-- IEEE sine: NaN at the infinities. -/
noncomputable def sin : FP → FP
  | fin x => fin (Real.sin x)
  | _ => nan

/-- IEEE cosine: NaN at the infinities. -/
noncomputable def cos : FP → FP
  | fin x => fin (Real.cos x)
  | _ => nan

open Classical in
/-- Python `x or d` on floats: `d` when `x == 0.0`, else `x`.
NaN and the infinities are truthy. -/
noncomputable def orElse (x d : FP) : FP := if x = fin 0 then d else x

/-- `np.degrees` (and the analogous `np.deg2rad`) multiply by a finite
conversion factor; we reuse the model's multiplication. -/
noncomputable def degrees (x : FP) : FP := x * fin (180 / Real.pi)

/-- `np.deg2rad`. -/
noncomputable def deg2rad (x : FP) : FP := x * fin (Real.pi / 180)

/-- The latitude (or any component) is a strictly negative finite value. -/
def isNegFin : FP → Prop
  | fin x => x < 0
  | _ => False

/-- The latitude (or any component) is a strictly positive finite value. -/
def isPosFin : FP → Prop
  | fin x => 0 < x
  | _ => False

end FP

open FP

/-! Constants of `ecef.py`.  The source hard-codes three separate constant
sets; each embedded function below uses its own set exactly as the source
does.  `aW`, `bW`, `eW` are the literals `a`, `b`, `e` shared by
`ecef_to_lat_lon_alt` and `ecef_to_lat_lon_alt1`; `e1W` and `cW` are the
hard-coded (commented-out-derivation) values of `e1` and `c` in
`ecef_to_lat_lon_alt`; `e1A` and `bigEA` are the values `e1 = sqrt(1 - e**2)`
and `E = e**2` that `ecef_to_lat_lon_alt1` computes at run time. -/

/-- Equatorial radius `a = 6378137.0` [m]. -/
def aW : ℝ := 6378137.0

/-- Polar radius `b = 6356752.314245` [m]. -/
def bW : ℝ := 6356752.314245

/-- Eccentricity literal `e = 0.08181919092890624`. -/
def eW : ℝ := 0.08181919092890624

/-- Hard-coded `e1 = 0.99664718932816898` of `ecef_to_lat_lon_alt`. -/
def e1W : ℝ := 0.99664718932816898

/-- Hard-coded `c = 42697.67279723605` of `ecef_to_lat_lon_alt`. -/
def cW : ℝ := 42697.67279723605

/-- `E = e ** 2` as computed by `ecef_to_lat_lon_alt1`. -/
noncomputable def bigEA : ℝ := eW ^ 2

/-- `e1 = sqrt(1 - e ** 2)` as computed by `ecef_to_lat_lon_alt1`. -/
noncomputable def e1A : ℝ := Real.sqrt (1 - eW ^ 2)

/-- Spherical radius `a = b = 6366255.89` [m] of `ecef_to_spherical`. -/
def aS : ℝ := 6366255.89

/-! ## `lat_lon_alt_to_ecef_xyz` (forward transform) -/

/-- `a2 = 6378137.0 ** 2`. -/
noncomputable def a2 : ℝ := 6378137.0 ^ 2

/-- `b2 = 6356752.314245 ** 2`. -/
noncomputable def b2 : ℝ := 6356752.314245 ^ 2

/-- `radius = lambda phi: sqrt(a2 * (cos(phi)) ** 2 + b2 * (sin(phi)) ** 2)`. -/
noncomputable def radius (phi : FP) : FP :=
  FP.sqrt (fin a2 * (FP.cos phi * FP.cos phi) + fin b2 * (FP.sin phi * FP.sin phi))

/-- `lat_lon_alt_to_ecef_xyz(R)`: geodetic `(lat deg, lon deg, alt m)` to
ECEF `(X, Y, Z)`, line for line from the source. -/
noncomputable def lat_lon_alt_to_ecef_xyz (R : FP × FP × FP) : FP × FP × FP :=
  let f := FP.deg2rad R.1
  let t := FP.deg2rad R.2.1
  let h := R.2.2
  (FP.cos t * FP.cos f * (h + fin a2 / radius f),
   FP.sin t * FP.cos f * (h + fin a2 / radius f),
   FP.sin f * (h + fin b2 / radius f))

/-! ## `ecef_to_lat_lon_alt` (the core inverse solver) -/

/-- One round of the fixed-point update of `ecef_to_lat_lon_alt`:
`C = np.power(1 + T ** 2, -0.5)`, `S = C * T`,
`T_new = (e1 * R[2] + c * S ** 3) / (p - c * C ** 3)`. -/
noncomputable def ecefStep (p z T : FP) : FP :=
  let C := FP.powNegHalf (fin 1 + T * T)
  let S := C * T
  (fin e1W * z + fin cW * (S * S * S)) / (p - fin cW * (C * C * C))

open Classical in
/-- The `for i in range(10)` loop of `ecef_to_lat_lon_alt` with its early
`break`: the fuel is the number of remaining rounds; each round updates
`T` and stops when `abs(delta) / T < 1e-9`. -/
noncomputable def bowLoop (p z : FP) : ℕ → FP → FP
  | 0, T => T
  | n + 1, T =>
      let Tn := ecefStep p z T
      if FP.lt (FP.abs (Tn - T) / Tn) (fin 1e-9) then Tn else bowLoop p z n Tn

open Classical in
/-- The straight-line tail of `ecef_to_lat_lon_alt` after the loop:
longitude, latitude, the two altitude branches, degree conversion. -/
noncomputable def ecefOut (x y z : FP) (deg : Bool) (p T : FP) : FP × FP × FP :=
  let theta := FP.atan2 y x
  let phi := FP.atan2 T (fin e1W)
  let T1 := fin 1 + T * T
  let h := if FP.lt z p then
      FP.sqrt (T1 - fin eW * fin eW) / fin e1W * (p - fin aW / FP.sqrt T1)
    else
      FP.sqrt (T1 - fin eW * fin eW) * (z / T - fin bW / FP.sqrt T1)
  if deg then (FP.degrees phi, FP.degrees theta, h) else (phi, theta, h)

/-- `ecef_to_lat_lon_alt(R, deg)`: ECEF to geodetic via the iterative
Bowring/Fukushima solver, line for line from the source ( `p > R[2]`
is `FP.lt z p` ). -/
noncomputable def ecef_to_lat_lon_alt (R : FP × FP × FP) (deg : Bool) : FP × FP × FP :=
  let p := FP.sqrt (R.1 * R.1 + R.2.1 * R.2.1)
  let T0 := FP.orElse (R.2.2 / (fin e1W * p)) (fin 1)
  ecefOut R.1 R.2.1 R.2.2 deg p (bowLoop p R.2.2 10 T0)

/-! ## `ecef_to_spherical`: the same code with `a = b = 6366255.89`,
`e = 0.0`, `e1 = 1.`, `c = 0.` hard-coded (a copy-pasted duplicate in the
source; kept a duplicate here so that the equivalence is a theorem). -/

/-- The fixed-point update of `ecef_to_spherical`. -/
noncomputable def sphStep (p z T : FP) : FP :=
  let C := FP.powNegHalf (fin 1 + T * T)
  let S := C * T
  (fin 1 * z + fin 0 * (S * S * S)) / (p - fin 0 * (C * C * C))

open Classical in
/-- The iteration loop of `ecef_to_spherical`. -/
noncomputable def sphLoop (p z : FP) : ℕ → FP → FP
  | 0, T => T
  | n + 1, T =>
      let Tn := sphStep p z T
      if FP.lt (FP.abs (Tn - T) / Tn) (fin 1e-9) then Tn else sphLoop p z n Tn

open Classical in
/-- The tail of `ecef_to_spherical` after the loop. -/
noncomputable def sphOut (x y z : FP) (deg : Bool) (p T : FP) : FP × FP × FP :=
  let theta := FP.atan2 y x
  let phi := FP.atan2 T (fin 1)
  let T1 := fin 1 + T * T
  let h := if FP.lt z p then
      FP.sqrt (T1 - fin 0 * fin 0) / fin 1 * (p - fin aS / FP.sqrt T1)
    else
      FP.sqrt (T1 - fin 0 * fin 0) * (z / T - fin aS / FP.sqrt T1)
  if deg then (FP.degrees phi, FP.degrees theta, h) else (phi, theta, h)

/-- `ecef_to_spherical(R, deg)`, line for line from the source. -/
noncomputable def ecef_to_spherical (R : FP × FP × FP) (deg : Bool) : FP × FP × FP :=
  let p := FP.sqrt (R.1 * R.1 + R.2.1 * R.2.1)
  let T0 := FP.orElse (R.2.2 / (fin 1 * p)) (fin 1)
  sphOut R.1 R.2.1 R.2.2 deg p (sphLoop p R.2.2 10 T0)

/-! ## The generic solver of the spec (section 4.4/9): the algorithm of
`ecef_to_lat_lon_alt` with the constants `(a, b, e, e1, c)` abstracted.
Modelled from the spec's words; claim C8 compares both source functions
against it. -/

/-- The fixed-point update with abstract constants. -/
noncomputable def genStep (e1r cr : ℝ) (p z T : FP) : FP :=
  let C := FP.powNegHalf (fin 1 + T * T)
  let S := C * T
  (fin e1r * z + fin cr * (S * S * S)) / (p - fin cr * (C * C * C))

open Classical in
/-- The iteration loop with abstract constants. -/
noncomputable def genLoop (e1r cr : ℝ) (p z : FP) : ℕ → FP → FP
  | 0, T => T
  | n + 1, T =>
      let Tn := genStep e1r cr p z T
      if FP.lt (FP.abs (Tn - T) / Tn) (fin 1e-9) then Tn else genLoop e1r cr p z n Tn

open Classical in
/-- The tail after the loop with abstract constants. -/
noncomputable def genOut (ar br er e1r : ℝ) (x y z : FP) (deg : Bool) (p T : FP) :
    FP × FP × FP :=
  let theta := FP.atan2 y x
  let phi := FP.atan2 T (fin e1r)
  let T1 := fin 1 + T * T
  let h := if FP.lt z p then
      FP.sqrt (T1 - fin er * fin er) / fin e1r * (p - fin ar / FP.sqrt T1)
    else
      FP.sqrt (T1 - fin er * fin er) * (z / T - fin br / FP.sqrt T1)
  if deg then (FP.degrees phi, FP.degrees theta, h) else (phi, theta, h)

/-- The generic iterative solver of the spec, parameterized by
`(a, b, e, e1, c)`. -/
noncomputable def genSolver (ar br er e1r cr : ℝ) (R : FP × FP × FP) (deg : Bool) :
    FP × FP × FP :=
  let p := FP.sqrt (R.1 * R.1 + R.2.1 * R.2.1)
  let T0 := FP.orElse (R.2.2 / (fin e1r * p)) (fin 1)
  genOut ar br er e1r R.1 R.2.1 R.2.2 deg p (genLoop e1r cr p R.2.2 10 T0)

/-! ## `ecef_to_lat_lon_alt1` (the Fukushima 2006 variant with the
NaN-triggered recursive fallback) -/

/-- `A = sqrt(S ** 2 + C ** 2)` of one round of `ecef_to_lat_lon_alt1`. -/
noncomputable def alt1A (S C : FP) : FP := FP.sqrt (S * S + C * C)

/-- `Cn = P * A ** 3 - E * C ** 3` of one round of `ecef_to_lat_lon_alt1`. -/
noncomputable def alt1Cn (P S C : FP) : FP :=
  P * (alt1A S C * alt1A S C * alt1A S C) - fin bigEA * (C * C * C)

/-- `Sn = Z * A ** 3 + E * S ** 3` of one round of `ecef_to_lat_lon_alt1`. -/
noncomputable def alt1Sn (Z S C : FP) : FP :=
  Z * (alt1A S C * alt1A S C * alt1A S C) + fin bigEA * (S * S * S)

/-- `delta = abs(Sn / Cn - S / C) * C / S` of one round of
`ecef_to_lat_lon_alt1`. -/
noncomputable def alt1Delta (P Z S C : FP) : FP :=
  FP.abs (alt1Sn Z S C / alt1Cn P S C - S / C) * C / S

open Classical in
/-- The `for i in range(max_iter)` loop of `ecef_to_lat_lon_alt1` with
`max_iter = 5`.  The fuel is the number of remaining rounds (`n = 0` inside
a round means `i == max_iter - 1`).  `none` signals that `isnan(delta)`
fired, i.e. the function re-invokes itself; otherwise the result is the
pair `(Sn, Cn)` in scope at the `break`. -/
noncomputable def alt1Loop (P Z : FP) : ℕ → FP → FP → Option (FP × FP)
  | 0, _, _ => none
  | n + 1, S, C =>
      if alt1Delta P Z S C = nan then none
      else if FP.lt (FP.abs (alt1Delta P Z S C)) (fin 1e-10) ∨ n = 0 then
        some (alt1Sn Z S C, alt1Cn P S C)
      else alt1Loop P Z n (alt1Sn Z S C) (alt1Cn P S C)

/-- The setup (`p`, `az`, `Z`, `P`, the truthiness-guarded seeds
`S, C = Z or 1, e1 * P or 1`) and loop of `ecef_to_lat_lon_alt1`:
`none` means the NaN fallback fired. -/
noncomputable def alt1Body (R : FP × FP × FP) : Option (FP × FP) :=
  let p := FP.sqrt (R.1 * R.1 + R.2.1 * R.2.1)
  let az := FP.abs R.2.2
  let Z := fin e1A * az / fin aW
  let P := p / fin aW
  alt1Loop P Z 5 (FP.orElse Z (fin 1)) (FP.orElse (fin e1A * P) (fin 1))

/-- The straight-line tail of `ecef_to_lat_lon_alt1` after the loop. -/
noncomputable def alt1Out (R : FP × FP × FP) (deg : Bool) (Sn Cn : FP) : FP × FP × FP :=
  let p := FP.sqrt (R.1 * R.1 + R.2.1 * R.2.1)
  let az := FP.abs R.2.2
  let theta := FP.atan2 R.2.1 R.1
  let Cc := fin e1A * Cn
  let phi := FP.sign R.2.2 * FP.atan2 Sn Cc
  let h := (p * Cc + az * Sn - fin bW * FP.sqrt (Sn * Sn + Cn * Cn)) /
      FP.sqrt (Cc * Cc + Sn * Sn)
  if deg then (FP.degrees phi, FP.degrees theta, h) else (phi, theta, h)

/-- `ecef_to_lat_lon_alt1(R, deg)` with explicit recursion fuel: the NaN
fallback is `return ecef_to_lat_lon_alt1(R)`, i.e. it re-invokes the
function on the exact same `R` with `deg` omitted, so `deg` defaults to
`True` on that path.  `none` models nontermination (fuel exhausted). -/
noncomputable def ecef_to_lat_lon_alt1 : ℕ → (FP × FP × FP) → Bool → Option (FP × FP × FP)
  | 0, _, _ => none
  | fuel + 1, R, deg =>
      match alt1Body R with
      | none => ecef_to_lat_lon_alt1 fuel R true
      | some (Sn, Cn) => some (alt1Out R deg Sn Cn)

/-! ## `sat_in_enu` (ENU projection) -/

/-- `sat_in_enu(R_u, R_sat)`: the normalized direction to the satellite in
the observer's local east-north-up frame, line for line from the source
(`C_ecef_to_enu * R` then division by `norm(X_enu)`). -/
noncomputable def sat_in_enu (Ru Rs : FP × FP × FP) : FP × FP × FP :=
  let Rx := Rs.1 - Ru.1
  let Ry := Rs.2.1 - Ru.2.1
  let Rz := Rs.2.2 - Ru.2.2
  let pth := ecef_to_lat_lon_alt Ru false
  let sp := FP.sin pth.1
  let st := FP.sin pth.2.1
  let cp := FP.cos pth.1
  let ct := FP.cos pth.2.1
  let x1 := (-st) * Rx + ct * Ry + fin 0 * Rz
  let x2 := ((-sp) * ct) * Rx + ((-sp) * st) * Ry + cp * Rz
  let x3 := (cp * ct) * Rx + (cp * st) * Ry + sp * Rz
  let nrm := FP.sqrt (x1 * x1 + x2 * x2 + x3 * x3)
  (x1 / nrm, x2 / nrm, x3 / nrm)

/-- Euclidean norm of a model 3-vector, used to state the unit-norm claim. -/
noncomputable def enuNorm (v : FP × FP × FP) : FP :=
  FP.sqrt (v.1 * v.1 + v.2.1 * v.2.1 + v.2.2 * v.2.2)

/-! ## Concrete inputs used by witnesses and counterexamples -/

/-- An input scale on which `ecef_to_lat_lon_alt1` converges after one round:
with `x = z = wEx` the loop's first `delta` is exactly zero. -/
noncomputable def wEx : ℝ := aW * bigEA / (Real.sqrt 2 * (1 - e1A))

/-- The input `(wEx, 0, wEx)` on which `ecef_to_lat_lon_alt1` returns at the
first round. -/
noncomputable def convIn : FP × FP × FP := (fin wEx, fin 0, fin wEx)

/-- An input on which the first round of `ecef_to_lat_lon_alt1` makes `Cn`
exactly zero, so the second round computes `delta = NaN` (`inf * 0`) and
the NaN fallback recursion fires. -/
noncomputable def nanIn : FP × FP × FP :=
  (fin (aW * bigEA / 8), fin 0, fin (aW * bigEA * Real.sqrt 3 / 8))

/-- The loop quantity `Z = P = S0 = C0` of the run of
`ecef_to_lat_lon_alt1` on `(wEx, 0, wEx)`. -/
noncomputable def zcEx : ℝ := e1A * wEx / aW

/-- The loop quantity `P = p/a` of the run on `(wEx, 0, wEx)`. -/
noncomputable def prEx : ℝ := wEx / aW

/-- `A` after the first round of the run on `(wEx, 0, wEx)`. -/
noncomputable def arEx : ℝ := zcEx * Real.sqrt 2

/-- `Sn` after the first round of the run on `(wEx, 0, wEx)`. -/
noncomputable def vEx : ℝ := zcEx * (arEx * arEx * arEx) + bigEA * (zcEx * zcEx * zcEx)

/-- `Cn` after the first round of the run on `(wEx, 0, wEx)`; the input is
engineered so that `vcEx = vEx`, making `delta` exactly zero and the loop
break at its first round. -/
noncomputable def vcEx : ℝ := prEx * (arEx * arEx * arEx) - bigEA * (zcEx * zcEx * zcEx)

/-! ## Statement-level definitions for the claims -/

/-- The pure iterates `T_j` of the fixed-point update of
`ecef_to_lat_lon_alt`: `T_0` is the seed, `T_(j+1) = step(T_j)`. -/
noncomputable def Titer (p z T0 : FP) : ℕ → FP
  | 0 => T0
  | n + 1 => ecefStep p z (Titer p z T0 n)

/-- The loop's stopping test after the `k`-th update (`k ≥ 1`):
`abs(T_k - T_(k-1)) / T_k < 1e-9`, i.e. the relative change
`|T_new - T| / T_new` is below `1e-9` in the IEEE order. -/
noncomputable def stopAt (p z T0 : FP) (k : ℕ) : Prop :=
  FP.lt (FP.abs (Titer p z T0 k - Titer p z T0 (k - 1)) / Titer p z T0 k) (fin 1e-9)

/-- The claim's equatorial altitude formula (Fukushima C11):
`sqrt(1 + T^2 - e^2)/e1 * (p - a/sqrt(1 + T^2))`. -/
noncomputable def altC11 (p T : FP) : FP :=
  FP.sqrt (fin 1 + T * T - fin eW * fin eW) / fin e1W *
    (p - fin aW / FP.sqrt (fin 1 + T * T))

/-- The claim's polar altitude formula (Fukushima C12):
`sqrt(1 + T^2 - e^2) * (Z/T - b/sqrt(1 + T^2))`. -/
noncomputable def altC12 (z T : FP) : FP :=
  FP.sqrt (fin 1 + T * T - fin eW * fin eW) *
    (z / T - fin bW / FP.sqrt (fin 1 + T * T))

/-- A model value that is a positive finite real or `+inf` (the invariant of
the `S` iterate of `ecef_to_lat_lon_alt1`). -/
def posOrPinf (v : FP) : Prop := (∃ r, v = fin r ∧ 0 < r) ∨ v = pinf

/-- The seed `T0 = 1/e1` of the run of `ecef_to_lat_lon_alt` on the input
`(1, 0, 1)` (a valid ECEF vector deep inside the Earth). -/
noncomputable def t0ex : ℝ := 1 / e1W

/-- `C` after the first update round on the input `(1, 0, 1)`. -/
noncomputable def cEx : ℝ := 1 / Real.sqrt (1 + t0ex * t0ex)

/-- `S` after the first update round on the input `(1, 0, 1)`. -/
noncomputable def s101 : ℝ := cEx * t0ex

/-- The final `T` of the run of `ecef_to_lat_lon_alt` on the input
`(1, 0, 1)`: the loop breaks after one round because `T` turns negative and
the signed test `abs(delta)/T < 1e-9` is then vacuously true. -/
noncomputable def t101 : ℝ :=
  (e1W * 1 + cW * (s101 * s101 * s101)) / (1 - cW * (cEx * cEx * cEx))

/-! # Computation lemmas for the scalar model -/

namespace FP

@[simp] theorem add_fin_fin (x y : ℝ) : fin x + fin y = fin (x + y) := rfl

@[simp] theorem mul_fin_fin (x y : ℝ) : fin x * fin y = fin (x * y) := rfl

@[simp] theorem neg_fin (x : ℝ) : -(fin x) = fin (-x) := rfl

@[simp] theorem sub_fin_fin (x y : ℝ) : fin x - fin y = fin (x - y) := by
  show fin (x + -y) = fin (x - y)
  rw [sub_eq_add_neg]

theorem div_fin_fin {y : ℝ} (h : y ≠ 0) (x : ℝ) : fin x / fin y = fin (x / y) := by
  show FP.div (fin x) (fin y) = fin (x / y)
  simp [FP.div, h]

@[simp] theorem add_nan (x : FP) : x + nan = nan := by cases x <;> rfl

@[simp] theorem nan_add (x : FP) : nan + x = nan := rfl

@[simp] theorem mul_nan (x : FP) : x * nan = nan := by cases x <;> rfl

@[simp] theorem nan_mul (x : FP) : nan * x = nan := rfl

@[simp] theorem sub_nan (x : FP) : x - nan = nan := by cases x <;> rfl

@[simp] theorem nan_sub (x : FP) : nan - x = nan := rfl

@[simp] theorem neg_nan : -(nan : FP) = nan := rfl

@[simp] theorem div_nan (x : FP) : x / nan = nan := by cases x <;> rfl

@[simp] theorem nan_div (x : FP) : nan / x = nan := rfl

@[simp] theorem fin_add_pinf (x : ℝ) : fin x + pinf = pinf := rfl

@[simp] theorem pinf_add_fin (x : ℝ) : pinf + fin x = pinf := rfl

@[simp] theorem pinf_add_pinf : (pinf : FP) + pinf = pinf := rfl

@[simp] theorem pinf_sub_fin (x : ℝ) : pinf - fin x = pinf := rfl

@[simp] theorem fin_sub_pinf (x : ℝ) : fin x - pinf = ninf := rfl

@[simp] theorem pinf_sub_pinf : (pinf : FP) - pinf = nan := rfl

@[simp] theorem pinf_sub_ninf : (pinf : FP) - ninf = pinf := rfl

@[simp] theorem nan_ne_fin (x : ℝ) : (nan : FP) ≠ fin x := by simp

@[simp] theorem fin_ne_nan (x : ℝ) : (fin x : FP) ≠ nan := by simp

@[simp] theorem pinf_mul_pinf : (pinf : FP) * pinf = pinf := rfl

@[simp] theorem ninf_mul_ninf : (ninf : FP) * ninf = pinf := rfl

@[simp] theorem ninf_mul_pinf : (ninf : FP) * pinf = ninf := rfl

@[simp] theorem pinf_mul_ninf : (pinf : FP) * ninf = ninf := rfl

@[simp] theorem zero_mul_pinf : fin 0 * pinf = nan := by
  show FP.mul (fin 0) pinf = nan
  simp [FP.mul]

@[simp] theorem zero_mul_ninf : fin 0 * ninf = nan := by
  show FP.mul (fin 0) ninf = nan
  simp [FP.mul]

@[simp] theorem pinf_mul_zero : pinf * fin 0 = nan := by
  show FP.mul pinf (fin 0) = nan
  simp [FP.mul]

theorem fin_mul_pinf_of_pos {x : ℝ} (h : 0 < x) : fin x * pinf = pinf := by
  show FP.mul (fin x) pinf = pinf
  simp [FP.mul, h, h.ne']

theorem pinf_mul_fin_of_pos {y : ℝ} (h : 0 < y) : pinf * fin y = pinf := by
  show FP.mul pinf (fin y) = pinf
  simp [FP.mul, h, h.ne']

theorem ninf_mul_fin_of_pos {y : ℝ} (h : 0 < y) : ninf * fin y = ninf := by
  show FP.mul ninf (fin y) = ninf
  simp [FP.mul, h, h.ne']

theorem fin_mul_ninf_of_pos {x : ℝ} (h : 0 < x) : fin x * ninf = ninf := by
  show FP.mul (fin x) ninf = ninf
  simp [FP.mul, h, h.ne']

theorem fin_div_zero_of_pos {x : ℝ} (h : 0 < x) : fin x / fin 0 = pinf := by
  show FP.div (fin x) (fin 0) = pinf
  simp [FP.div, h, h.ne']

theorem fin_div_zero_of_neg {x : ℝ} (h : x < 0) : fin x / fin 0 = ninf := by
  show FP.div (fin x) (fin 0) = ninf
  simp [FP.div, h.ne, not_lt.2 h.le]

@[simp] theorem zero_div_zero : fin 0 / fin 0 = nan := by
  show FP.div (fin 0) (fin 0) = nan
  simp [FP.div]

@[simp] theorem fin_div_pinf (x : ℝ) : fin x / pinf = fin 0 := rfl

@[simp] theorem fin_div_ninf (x : ℝ) : fin x / ninf = fin 0 := rfl

@[simp] theorem pinf_div_pinf : (pinf : FP) / pinf = nan := rfl

theorem pinf_div_fin_of_nonneg {y : ℝ} (h : 0 ≤ y) : pinf / fin y = pinf := by
  show FP.div pinf (fin y) = pinf
  simp [FP.div, h]

@[simp] theorem abs_fin (x : ℝ) : FP.abs (fin x) = fin |x| := rfl

@[simp] theorem abs_pinf : FP.abs pinf = pinf := rfl

@[simp] theorem abs_ninf : FP.abs ninf = pinf := rfl

@[simp] theorem abs_nan : FP.abs nan = nan := rfl

theorem sqrt_fin_of_nonneg {x : ℝ} (h : 0 ≤ x) :
    FP.sqrt (fin x) = fin (Real.sqrt x) := by
  simp [FP.sqrt, not_lt.2 h]

@[simp] theorem sqrt_pinf : FP.sqrt pinf = pinf := rfl

@[simp] theorem sqrt_nan : FP.sqrt nan = nan := rfl

theorem powNegHalf_fin_of_pos {x : ℝ} (h : 0 < x) :
    powNegHalf (fin x) = fin (1 / Real.sqrt x) := by
  simp [powNegHalf, not_lt.2 h.le, h.ne']

@[simp] theorem powNegHalf_pinf : powNegHalf pinf = fin 0 := rfl

@[simp] theorem powNegHalf_nan : powNegHalf nan = nan := rfl

@[simp] theorem lt_fin_fin {x y : ℝ} : lt (fin x) (fin y) ↔ x < y := Iff.rfl

@[simp] theorem not_nan_lt (y : FP) : ¬ lt nan y := by cases y <;> simp [lt]

@[simp] theorem not_lt_nan (x : FP) : ¬ lt x nan := by cases x <;> simp [lt]

@[simp] theorem not_pinf_lt (y : FP) : ¬ lt pinf y := by cases y <;> simp [lt]

@[simp] theorem fin_lt_pinf (x : ℝ) : lt (fin x) pinf := trivial

@[simp] theorem orElse_zero (d : FP) : orElse (fin 0) d = d := by simp [orElse]

theorem orElse_of_ne {x : FP} (h : x ≠ fin 0) (d : FP) : orElse x d = x := by
  simp [orElse, h]

@[simp] theorem orElse_pinf (d : FP) : orElse pinf d = pinf := by
  simp [orElse]

@[simp] theorem orElse_nan (d : FP) : orElse nan d = nan := by
  simp [orElse]

@[simp] theorem atan2_fin_fin (y x : ℝ) : atan2 (fin y) (fin x) = fin (atan2R y x) := rfl

@[simp] theorem atan2_nan_right (y : FP) : atan2 y nan = nan := by cases y <;> rfl

@[simp] theorem atan2_nan_left (x : FP) : atan2 nan x = nan := rfl

@[simp] theorem atan2_pinf_fin (x : ℝ) : atan2 pinf (fin x) = fin (Real.pi / 2) := rfl

@[simp] theorem atan2_pinf_pinf : atan2 pinf pinf = fin (Real.pi / 4) := rfl

@[simp] theorem atan2_pinf_ninf : atan2 pinf ninf = fin (3 * Real.pi / 4) := rfl

@[simp] theorem atan2_fin_pinf (y : ℝ) : atan2 (fin y) pinf = fin 0 := rfl

theorem sign_fin_of_pos {x : ℝ} (h : 0 < x) : sign (fin x) = fin 1 := by
  simp [sign, not_lt.2 h.le, h.ne']

theorem sign_fin_of_neg {x : ℝ} (h : x < 0) : sign (fin x) = fin (-1) := by
  simp [sign, h]

@[simp] theorem sign_nan : sign nan = nan := rfl

@[simp] theorem sin_fin (x : ℝ) : FP.sin (fin x) = fin (Real.sin x) := rfl

@[simp] theorem sin_nan : FP.sin nan = nan := rfl

@[simp] theorem cos_fin (x : ℝ) : FP.cos (fin x) = fin (Real.cos x) := rfl

@[simp] theorem cos_nan : FP.cos nan = nan := rfl

@[simp] theorem degrees_fin (x : ℝ) : degrees (fin x) = fin (x * (180 / Real.pi)) := rfl

@[simp] theorem degrees_nan : degrees nan = nan := rfl

theorem atan2R_of_pos {x : ℝ} (h : 0 < x) (y : ℝ) :
    atan2R y x = Real.arctan (y / x) := by
  simp [atan2R, h]

@[simp] theorem atan2R_zero_zero : atan2R 0 0 = 0 := by simp [atan2R]

end FP

/-! # The loop of `ecef_to_lat_lon_alt` (claims C4, C5) -/

theorem Titer_succ (p z T0 : FP) (n : ℕ) :
    Titer p z T0 (n + 1) = ecefStep p z (Titer p z T0 n) := rfl

open Classical in
theorem bowLoop_succ (p z : FP) (n : ℕ) (T : FP) :
    bowLoop p z (n + 1) T =
      if FP.lt (FP.abs (ecefStep p z T - T) / ecefStep p z T) (fin 1e-9) then
        ecefStep p z T
      else bowLoop p z n (ecefStep p z T) := rfl

/-- The break-style loop, started at the iterate `T_s` with `n ≥ 1` rounds of
fuel, returns the first iterate `T_(s+k)` (`1 ≤ k ≤ n`) whose stopping test
holds, or `T_(s+n)` if none does. -/
theorem bowLoop_char (p z T0 : FP) :
    ∀ n s, 1 ≤ n →
      ∃ k, 1 ≤ k ∧ k ≤ n ∧ bowLoop p z n (Titer p z T0 s) = Titer p z T0 (s + k) ∧
        (∀ j, 1 ≤ j → j < k → ¬ stopAt p z T0 (s + j)) ∧
        (k < n → stopAt p z T0 (s + k)) := by
  intro n
  induction n with
  | zero => intro s h; exact absurd h (by omega)
  | succ n ih =>
    intro s _
    have hstep : ecefStep p z (Titer p z T0 s) = Titer p z T0 (s + 1) := rfl
    have hcond : stopAt p z T0 (s + 1) =
        FP.lt (FP.abs (Titer p z T0 (s + 1) - Titer p z T0 s) / Titer p z T0 (s + 1))
          (fin 1e-9) := by
      simp [stopAt]
    by_cases hc : stopAt p z T0 (s + 1)
    · refine ⟨1, le_refl 1, by omega, ?_, by omega, fun _ => hc⟩
      rw [bowLoop_succ, hstep, if_pos (hcond ▸ hc)]
    · have hbranch : bowLoop p z (n + 1) (Titer p z T0 s) =
          bowLoop p z n (Titer p z T0 (s + 1)) := by
        rw [bowLoop_succ, hstep, if_neg (hcond ▸ hc)]
      cases n with
      | zero =>
        refine ⟨1, le_refl 1, le_refl 1, ?_, by omega, by omega⟩
        rw [hbranch]
        rfl
      | succ m =>
        obtain ⟨k, hk1, hkn, heq, hnone, hlast⟩ := ih (s + 1) (by omega)
        refine ⟨k + 1, by omega, by omega, ?_, ?_, ?_⟩
        · rw [hbranch, heq]
          congr 1
          omega
        · intro j hj1 hjk
          rcases Nat.lt_or_ge j 2 with hj | hj
          · have : j = 1 := by omega
            subst this
            exact hc
          · have hrw : s + j = s + 1 + (j - 1) := by omega
            rw [hrw]
            exact hnone (j - 1) (by omega) (by omega)
        · intro hlt
          have hrw : s + (k + 1) = s + 1 + k := by omega
          rw [hrw]
          exact hlast (by omega)

/-- Claim C4: the fixed-point loop of `ecef_to_lat_lon_alt` performs at most
10 update rounds (each one `ecefStep`: `C = (1+T^2)^(-1/2)`, `S = C*T`,
`T_new = (e1*Z + c*S^3)/(p - c*C^3)`); it stops early after round `k < 10`
exactly when the relative-change test `abs(T_new - T)/T_new < 1e-9` first
holds, otherwise it runs all 10 rounds; and the function's output is always
computed from the last iterate (it never fails). -/
theorem ecef_loop_runs_at_most_ten_rounds :
    (∀ p z T0, ∃ k, 1 ≤ k ∧ k ≤ 10 ∧
      bowLoop p z 10 T0 = Titer p z T0 k ∧
      (∀ j, 1 ≤ j → j < k → ¬ stopAt p z T0 j) ∧
      (k < 10 → stopAt p z T0 k)) ∧
    (∀ R deg, ecef_to_lat_lon_alt R deg =
      ecefOut R.1 R.2.1 R.2.2 deg (FP.sqrt (R.1 * R.1 + R.2.1 * R.2.1))
        (bowLoop (FP.sqrt (R.1 * R.1 + R.2.1 * R.2.1)) R.2.2 10
          (FP.orElse (R.2.2 / (fin e1W * FP.sqrt (R.1 * R.1 + R.2.1 * R.2.1)))
            (fin 1)))) := by
  constructor
  · intro p z T0
    have h := bowLoop_char p z T0 10 0 (by omega)
    simpa using h
  · intro R deg
    rfl

open Classical in
/-- Claim C5: the returned altitude is selected by the condition `p > Z`
between exactly the two formulas `altC11` (equatorial) and `altC12` (polar),
evaluated at the final iterate of the fixed-point loop; the `deg` flag does
not affect the altitude. -/
theorem ecef_alt_branch (x y z : FP) (deg : Bool) :
    (ecef_to_lat_lon_alt (x, y, z) deg).2.2 =
      (if FP.lt z (FP.sqrt (x * x + y * y)) then
        altC11 (FP.sqrt (x * x + y * y))
          (bowLoop (FP.sqrt (x * x + y * y)) z 10
            (FP.orElse (z / (fin e1W * FP.sqrt (x * x + y * y))) (fin 1)))
      else
        altC12 z
          (bowLoop (FP.sqrt (x * x + y * y)) z 10
            (FP.orElse (z / (fin e1W * FP.sqrt (x * x + y * y))) (fin 1)))) := by
  show (ecefOut x y z deg (FP.sqrt (x * x + y * y))
      (bowLoop (FP.sqrt (x * x + y * y)) z 10
        (FP.orElse (z / (fin e1W * FP.sqrt (x * x + y * y))) (fin 1)))).2.2 = _
  cases deg <;> rfl

/-! # The generic solver (claim C8) -/

open Classical in
theorem genLoop_succ (e1r cr : ℝ) (p z : FP) (n : ℕ) (T : FP) :
    genLoop e1r cr p z (n + 1) T =
      if FP.lt (FP.abs (genStep e1r cr p z T - T) / genStep e1r cr p z T)
        (fin 1e-9) then genStep e1r cr p z T
      else genLoop e1r cr p z n (genStep e1r cr p z T) := rfl

open Classical in
theorem sphLoop_succ (p z : FP) (n : ℕ) (T : FP) :
    sphLoop p z (n + 1) T =
      if FP.lt (FP.abs (sphStep p z T - T) / sphStep p z T) (fin 1e-9) then
        sphStep p z T
      else sphLoop p z n (sphStep p z T) := rfl

theorem genLoop_eq_bowLoop (n : ℕ) (p z T : FP) :
    genLoop e1W cW p z n T = bowLoop p z n T := by
  induction n generalizing T with
  | zero => rfl
  | succ n ih =>
    rw [genLoop_succ, bowLoop_succ]
    have hstep : genStep e1W cW p z T = ecefStep p z T := rfl
    rw [hstep, ih]

theorem genLoop_eq_sphLoop (n : ℕ) (p z T : FP) :
    genLoop 1 0 p z n T = sphLoop p z n T := by
  induction n generalizing T with
  | zero => rfl
  | succ n ih =>
    rw [genLoop_succ, sphLoop_succ]
    have hstep : genStep 1 0 p z T = sphStep p z T := rfl
    rw [hstep, ih]

/-- Claim C8: `ecef_to_spherical` computes exactly the algorithm of
`ecef_to_lat_lon_alt` with its constants replaced by
`a = b = 6366255.89`, `e = 0`, `e1 = 1`, `c = 0`: both source functions are
instances of the one generic solver, at the degenerate spherical parameters
and at the WGS84 parameters respectively. -/
theorem spherical_is_degenerate_solver :
    (∀ R deg, ecef_to_spherical R deg = genSolver 6366255.89 6366255.89 0 1 0 R deg) ∧
    (∀ R deg, ecef_to_lat_lon_alt R deg = genSolver aW bW eW e1W cW R deg) := by
  constructor
  · intro R deg
    show sphOut R.1 R.2.1 R.2.2 deg _ (sphLoop _ R.2.2 10 _) =
      genOut 6366255.89 6366255.89 0 1 R.1 R.2.1 R.2.2 deg _ (genLoop 1 0 _ R.2.2 10 _)
    rw [genLoop_eq_sphLoop]
    rfl
  · intro R deg
    show ecefOut R.1 R.2.1 R.2.2 deg _ (bowLoop _ R.2.2 10 _) =
      genOut aW bW eW e1W R.1 R.2.1 R.2.2 deg _ (genLoop e1W cW _ R.2.2 10 _)
    rw [genLoop_eq_bowLoop]
    rfl

/-! # NaN propagation through the core solver (claims C2, C3) -/

theorem ecefStep_nan (p z : FP) : ecefStep p z nan = nan := by
  simp [ecefStep]

theorem bowLoop_nan (p z : FP) : ∀ n, bowLoop p z n nan = nan := by
  intro n
  induction n with
  | zero => rfl
  | succ n ih =>
    rw [bowLoop_succ, ecefStep_nan]
    simp [ih]

theorem ecefStep_pole : ecefStep (fin 0) (fin bW) pinf = nan := by
  simp [ecefStep]

/-- On the polar-axis input the seed division `Z/(e1*p)` is `b/0 = +inf`. -/
theorem pole_seed_is_pinf :
    FP.orElse (fin bW / (fin e1W * FP.sqrt (fin 0 * fin 0 + fin 0 * fin 0)))
      (fin 1) = pinf := by
  have hp : FP.sqrt (fin 0 * fin 0 + fin 0 * fin 0) = fin 0 := by
    rw [mul_fin_fin, add_fin_fin, sqrt_fin_of_nonneg (by norm_num)]
    norm_num
  rw [hp, mul_fin_fin]
  have h0 : e1W * (0 : ℝ) = 0 := by ring
  rw [h0, fin_div_zero_of_pos (by norm_num [bW])]
  exact orElse_pinf _

theorem pole_loop_nan :
    bowLoop (fin 0) (fin bW) 10 pinf = nan := by
  rw [bowLoop_succ, ecefStep_pole]
  simp [bowLoop_nan]

/-- Full evaluation of `ecef_to_lat_lon_alt` at the north-pole surface point
`(0, 0, b)`: the returned latitude and altitude are NaN (for either `deg`),
the longitude is 0. -/
theorem ecef_pole_eval (deg : Bool) :
    ecef_to_lat_lon_alt (fin 0, fin 0, fin bW) deg = (nan, fin 0, nan) := by
  show ecefOut (fin 0) (fin 0) (fin bW) deg
      (FP.sqrt (fin 0 * fin 0 + fin 0 * fin 0))
      (bowLoop (FP.sqrt (fin 0 * fin 0 + fin 0 * fin 0)) (fin bW) 10
        (FP.orElse (fin bW / (fin e1W * FP.sqrt (fin 0 * fin 0 + fin 0 * fin 0)))
          (fin 1))) = (nan, fin 0, nan)
  have hp : FP.sqrt (fin 0 * fin 0 + fin 0 * fin 0) = fin 0 := by
    rw [mul_fin_fin, add_fin_fin, sqrt_fin_of_nonneg (by norm_num)]
    norm_num
  rw [hp]
  rw [show FP.orElse (fin bW / (fin e1W * fin 0)) (fin 1) = pinf by
    rw [mul_fin_fin]
    have h0 : e1W * (0 : ℝ) = 0 := by ring
    rw [h0, fin_div_zero_of_pos (by norm_num [bW])]
    exact orElse_pinf _]
  rw [pole_loop_nan]
  have hbW : ¬ FP.lt (fin bW) (fin 0) := by
    rw [lt_fin_fin]
    norm_num [bW]
  cases deg <;> simp [ecefOut, hbW]

/-- Full evaluation of `ecef_to_lat_lon_alt` at the all-zero input: the seed
is `0/0 = NaN` (truthy, so the `or 1.` guard does not fire) and the function
silently returns NaN latitude and altitude with longitude 0. -/
theorem ecef_origin_eval (deg : Bool) :
    ecef_to_lat_lon_alt (fin 0, fin 0, fin 0) deg = (nan, fin 0, nan) := by
  show ecefOut (fin 0) (fin 0) (fin 0) deg
      (FP.sqrt (fin 0 * fin 0 + fin 0 * fin 0))
      (bowLoop (FP.sqrt (fin 0 * fin 0 + fin 0 * fin 0)) (fin 0) 10
        (FP.orElse (fin 0 / (fin e1W * FP.sqrt (fin 0 * fin 0 + fin 0 * fin 0)))
          (fin 1))) = (nan, fin 0, nan)
  have hp : FP.sqrt (fin 0 * fin 0 + fin 0 * fin 0) = fin 0 := by
    rw [mul_fin_fin, add_fin_fin, sqrt_fin_of_nonneg (by norm_num)]
    norm_num
  rw [hp]
  rw [show FP.orElse (fin 0 / (fin e1W * fin 0)) (fin 1) = nan by
    rw [mul_fin_fin]
    have h0 : e1W * (0 : ℝ) = 0 := by ring
    rw [h0, zero_div_zero]
    exact orElse_nan _]
  rw [bowLoop_nan]
  cases deg <;> simp [ecefOut]

/-- Claim C2 (the code bug): at the polar-axis input `X = Y = 0, Z = b` the
seed `T0 = Z/(e1*p)` evaluates to `+inf` (numpy division of `b` by zero
yields `inf`, not an exception; `inf` is truthy, so the `or 1.` guard does
NOT substitute 1), and the function then returns NaN latitude and altitude
rather than +90 degrees.  The guard only fires when the quotient is exactly
zero, i.e. when `Z = 0` and `p ≠ 0`. -/
theorem pole_seed_is_inf_and_latitude_nan :
    FP.orElse (fin bW / (fin e1W * FP.sqrt (fin 0 * fin 0 + fin 0 * fin 0)))
      (fin 1) = pinf ∧
    ecef_to_lat_lon_alt (fin 0, fin 0, fin bW) true = (nan, fin 0, nan) :=
  ⟨pole_seed_is_pinf, ecef_pole_eval true⟩

/-- Claim C3 counterexample: on the input `(0, 0, 0)` the function silently
returns NaN latitude and NaN altitude (longitude 0) to the caller — there is
no NaN detection, no fallback and no explicit failure in
`ecef_to_lat_lon_alt`. -/
theorem origin_returns_nan_silently :
    ecef_to_lat_lon_alt (fin 0, fin 0, fin 0) true = (nan, fin 0, nan) :=
  ecef_origin_eval true

/-- Claim C3 amended: `ecef_to_lat_lon_alt` performs no NaN detection at
all; on the singular all-zero input it silently returns NaN latitude and NaN
altitude for either value of the `deg` flag (the `isnan` check exists only
in the variant `ecef_to_lat_lon_alt1`). -/
theorem ecef_no_nan_detection (deg : Bool) :
    (ecef_to_lat_lon_alt (fin 0, fin 0, fin 0) deg).1 = nan ∧
    (ecef_to_lat_lon_alt (fin 0, fin 0, fin 0) deg).2.2 = nan := by
  rw [ecef_origin_eval]
  exact ⟨rfl, rfl⟩

/-! # The ENU projection (claim C6) -/

/-- Claim C6 counterexample: with the observer at the ECEF origin `(0,0,0)`
and the target at `(1,0,0)` — a non-coincident pair, the difference vector is
`(1,0,0) ≠ 0` — the returned vector is `(NaN, NaN, NaN)` and its Euclidean
norm is NaN, not 1: the observer's geodetic solve returns NaN latitude and
the NaN propagates through the rotation and the normalization. -/
theorem enu_nan_for_origin_observer :
    sat_in_enu (fin 0, fin 0, fin 0) (fin 1, fin 0, fin 0) = (nan, nan, nan) ∧
    enuNorm (sat_in_enu (fin 0, fin 0, fin 0) (fin 1, fin 0, fin 0)) = nan := by
  have h : sat_in_enu (fin 0, fin 0, fin 0) (fin 1, fin 0, fin 0) =
      (nan, nan, nan) := by
    simp [sat_in_enu, ecef_origin_eval]
  refine ⟨h, ?_⟩
  rw [h]
  simp [enuNorm]

/-- Claim C6 amended: for finite observer and target positions whose
difference vector is nonzero AND whose observer produces finite geodetic
angles from the inverse solver (which excludes singular observers such as
the ECEF origin, where the solver returns NaN), the returned ENU vector has
Euclidean norm exactly 1 — hence certainly within `1e-9` of 1. -/
theorem enu_unit_norm (u1 u2 u3 s1 s2 s3 ph th : ℝ)
    (hph : (ecef_to_lat_lon_alt (fin u1, fin u2, fin u3) false).1 = fin ph)
    (hth : (ecef_to_lat_lon_alt (fin u1, fin u2, fin u3) false).2.1 = fin th)
    (hne : ¬ (s1 - u1 = 0 ∧ s2 - u2 = 0 ∧ s3 - u3 = 0)) :
    enuNorm (sat_in_enu (fin u1, fin u2, fin u3) (fin s1, fin s2, fin s3)) = fin 1 := by
  have hQpos : 0 < (s1 - u1) ^ 2 + (s2 - u2) ^ 2 + (s3 - u3) ^ 2 := by
    push_neg at hne
    rcases eq_or_ne (s1 - u1) 0 with h1 | h1
    · rcases eq_or_ne (s2 - u2) 0 with h2 | h2
      · have h3 := hne h1 h2
        have : 0 < (s3 - u3) ^ 2 := by positivity
        nlinarith [sq_nonneg (s1 - u1), sq_nonneg (s2 - u2)]
      · have : 0 < (s2 - u2) ^ 2 := by positivity
        nlinarith [sq_nonneg (s1 - u1), sq_nonneg (s3 - u3)]
    · have : 0 < (s1 - u1) ^ 2 := by positivity
      nlinarith [sq_nonneg (s2 - u2), sq_nonneg (s3 - u3)]
  simp only [sat_in_enu]
  rw [hph, hth]
  simp only [sin_fin, cos_fin, sub_fin_fin, neg_fin, mul_fin_fin, add_fin_fin]
  set X1 : ℝ := -Real.sin th * (s1 - u1) + Real.cos th * (s2 - u2) + 0 * (s3 - u3)
    with hX1
  set X2 : ℝ := -Real.sin ph * Real.cos th * (s1 - u1) +
    -Real.sin ph * Real.sin th * (s2 - u2) + Real.cos ph * (s3 - u3) with hX2
  set X3 : ℝ := Real.cos ph * Real.cos th * (s1 - u1) +
    Real.cos ph * Real.sin th * (s2 - u2) + Real.sin ph * (s3 - u3) with hX3
  have hQ2 : X1 * X1 + X2 * X2 + X3 * X3 =
      (s1 - u1) ^ 2 + (s2 - u2) ^ 2 + (s3 - u3) ^ 2 := by
    rw [hX1, hX2, hX3]
    have h1 : Real.sin th ^ 2 + Real.cos th ^ 2 = 1 := Real.sin_sq_add_cos_sq th
    have h2 : Real.sin ph ^ 2 + Real.cos ph ^ 2 = 1 := Real.sin_sq_add_cos_sq ph
    linear_combination
      (((Real.cos th * (s1 - u1) + Real.sin th * (s2 - u2)) ^ 2 + (s3 - u3) ^ 2)) * h2 +
      ((s1 - u1) ^ 2 + (s2 - u2) ^ 2) * h1
  have hsq : FP.sqrt (fin (X1 * X1 + X2 * X2 + X3 * X3)) =
      fin (Real.sqrt ((s1 - u1) ^ 2 + (s2 - u2) ^ 2 + (s3 - u3) ^ 2)) := by
    rw [hQ2, sqrt_fin_of_nonneg hQpos.le]
  rw [hsq]
  have hr : (0 : ℝ) < Real.sqrt ((s1 - u1) ^ 2 + (s2 - u2) ^ 2 + (s3 - u3) ^ 2) :=
    Real.sqrt_pos.2 hQpos
  rw [div_fin_fin hr.ne', div_fin_fin hr.ne', div_fin_fin hr.ne']
  simp only [enuNorm, mul_fin_fin, add_fin_fin]
  have hinner : X1 / Real.sqrt ((s1 - u1) ^ 2 + (s2 - u2) ^ 2 + (s3 - u3) ^ 2) *
        (X1 / Real.sqrt ((s1 - u1) ^ 2 + (s2 - u2) ^ 2 + (s3 - u3) ^ 2)) +
      X2 / Real.sqrt ((s1 - u1) ^ 2 + (s2 - u2) ^ 2 + (s3 - u3) ^ 2) *
        (X2 / Real.sqrt ((s1 - u1) ^ 2 + (s2 - u2) ^ 2 + (s3 - u3) ^ 2)) +
      X3 / Real.sqrt ((s1 - u1) ^ 2 + (s2 - u2) ^ 2 + (s3 - u3) ^ 2) *
        (X3 / Real.sqrt ((s1 - u1) ^ 2 + (s2 - u2) ^ 2 + (s3 - u3) ^ 2)) = 1 := by
    have hss : Real.sqrt ((s1 - u1) ^ 2 + (s2 - u2) ^ 2 + (s3 - u3) ^ 2) *
        Real.sqrt ((s1 - u1) ^ 2 + (s2 - u2) ^ 2 + (s3 - u3) ^ 2) =
        (s1 - u1) ^ 2 + (s2 - u2) ^ 2 + (s3 - u3) ^ 2 :=
      Real.mul_self_sqrt hQpos.le
    field_simp
    linear_combination hQ2
  rw [hinner, sqrt_fin_of_nonneg (by norm_num)]
  rw [Real.sqrt_one]

/-! # Evaluation of `ecef_to_lat_lon_alt` on the input `(1, 0, 1)`
(claim C7 counterexample and the C6 witness).  The seed is
`T0 = 1/e1 > 0`, but after one round the denominator `p - c*C^3` is
negative (because `p = 1 < c*C^3`), so `T` turns negative; the signed
stopping test `abs(delta)/T < 1e-9` is then vacuously true and the loop
breaks after a single round with a negative `T`, although `Z = 1 > 0`. -/

theorem t0ex_pos : 0 < t0ex := by norm_num [t0ex, e1W]

theorem qEx_pos : (0 : ℝ) < 1 + t0ex * t0ex := by nlinarith [t0ex_pos]

theorem cEx_pos : 0 < cEx := by
  rw [cEx]
  exact div_pos one_pos (Real.sqrt_pos.2 qEx_pos)

theorem sqrt_qEx_bound : Real.sqrt (1 + t0ex * t0ex) ≤ 1.5 := by
  rw [Real.sqrt_le_iff]
  constructor
  · norm_num
  · norm_num [t0ex, e1W]

theorem den101_neg : 1 - cW * (cEx * cEx * cEx) < 0 := by
  have hq : (0:ℝ) < Real.sqrt (1 + t0ex * t0ex) := Real.sqrt_pos.2 qEx_pos
  have hcube : Real.sqrt (1 + t0ex * t0ex) * Real.sqrt (1 + t0ex * t0ex) *
      Real.sqrt (1 + t0ex * t0ex) ≤ 1.5 * 1.5 * 1.5 := by
    have h := sqrt_qEx_bound
    nlinarith [hq.le]
  have hc : cEx * cEx * cEx =
      1 / (Real.sqrt (1 + t0ex * t0ex) * Real.sqrt (1 + t0ex * t0ex) *
        Real.sqrt (1 + t0ex * t0ex)) := by
    rw [cEx]
    field_simp
  rw [hc, sub_neg, mul_one_div, lt_div_iff₀ (mul_pos (mul_pos hq hq) hq)]
  calc (1:ℝ) * (Real.sqrt (1 + t0ex * t0ex) * Real.sqrt (1 + t0ex * t0ex) *
        Real.sqrt (1 + t0ex * t0ex)) ≤ 1.5 * 1.5 * 1.5 := by
        rw [one_mul]; exact hcube
    _ < cW := by norm_num [cW]

theorem s101_pos : 0 < s101 := by
  rw [s101]
  exact mul_pos cEx_pos t0ex_pos

theorem num101_pos : 0 < e1W * 1 + cW * (s101 * s101 * s101) := by
  have h1 : (0:ℝ) < e1W * 1 := by norm_num [e1W]
  have h2 : (0:ℝ) < cW * (s101 * s101 * s101) := by
    have := s101_pos
    have hcW : (0:ℝ) < cW := by norm_num [cW]
    positivity
  linarith

theorem t101_neg : t101 < 0 := by
  rw [t101]
  exact div_neg_of_pos_of_neg num101_pos den101_neg

theorem ecefStep_101 : ecefStep (fin 1) (fin 1) (fin t0ex) = fin t101 := by
  rw [ecefStep]
  simp only [mul_fin_fin, add_fin_fin]
  rw [powNegHalf_fin_of_pos qEx_pos]
  have hce : (1 : ℝ) / Real.sqrt (1 + t0ex * t0ex) = cEx := rfl
  rw [hce]
  simp only [mul_fin_fin, add_fin_fin]
  have hs : cEx * t0ex = s101 := rfl
  rw [hs]
  simp only [mul_fin_fin, add_fin_fin, sub_fin_fin]
  rw [div_fin_fin (by exact den101_neg.ne)]
  rfl

theorem bowLoop_101 : bowLoop (fin 1) (fin 1) 10 (fin t0ex) = fin t101 := by
  rw [bowLoop_succ, ecefStep_101]
  rw [if_pos]
  rw [sub_fin_fin, abs_fin, div_fin_fin t101_neg.ne]
  rw [lt_fin_fin]
  have h1 : |t101 - t0ex| / t101 ≤ 0 :=
    div_nonpos_of_nonneg_of_nonpos (abs_nonneg _) t101_neg.le
  linarith

theorem ecef101_eval (deg : Bool) :
    ecef_to_lat_lon_alt (fin 1, fin 0, fin 1) deg =
      ecefOut (fin 1) (fin 0) (fin 1) deg (fin 1) (fin t101) := by
  show ecefOut (fin 1) (fin 0) (fin 1) deg
      (FP.sqrt (fin 1 * fin 1 + fin 0 * fin 0))
      (bowLoop (FP.sqrt (fin 1 * fin 1 + fin 0 * fin 0)) (fin 1) 10
        (FP.orElse (fin 1 / (fin e1W * FP.sqrt (fin 1 * fin 1 + fin 0 * fin 0)))
          (fin 1))) = _
  have hp : FP.sqrt (fin 1 * fin 1 + fin 0 * fin 0) = fin 1 := by
    simp only [mul_fin_fin, add_fin_fin]
    rw [sqrt_fin_of_nonneg (by norm_num)]
    norm_num
  rw [hp]
  have hT0 : FP.orElse (fin 1 / (fin e1W * fin 1)) (fin 1) = fin t0ex := by
    rw [mul_fin_fin, div_fin_fin (by norm_num [e1W]), mul_one]
    have : (1 : ℝ) / e1W = t0ex := rfl
    rw [this]
    exact orElse_of_ne (by simp [t0ex_pos.ne']) _
  rw [hT0, bowLoop_101]

/-- The latitude of `ecef_to_lat_lon_alt (1, 0, 1)` (degrees). -/
theorem ecef101_lat_true :
    (ecef_to_lat_lon_alt (fin 1, fin 0, fin 1) true).1 =
      fin (FP.atan2R t101 e1W * (180 / Real.pi)) := by
  rw [ecef101_eval]
  rfl

/-- The latitude and longitude of `ecef_to_lat_lon_alt (1, 0, 1)` (radians). -/
theorem ecef101_radians :
    (ecef_to_lat_lon_alt (fin 1, fin 0, fin 1) false).1 = fin (FP.atan2R t101 e1W) ∧
    (ecef_to_lat_lon_alt (fin 1, fin 0, fin 1) false).2.1 = fin (FP.atan2R 0 1) := by
  rw [ecef101_eval]
  exact ⟨rfl, rfl⟩

theorem atan2R_101_neg : FP.atan2R t101 e1W < 0 := by
  rw [atan2R_of_pos (by norm_num [e1W])]
  have harg : t101 / e1W < 0 :=
    div_neg_of_neg_of_pos t101_neg (by norm_num [e1W])
  have := Real.arctan_strictMono harg
  rwa [Real.arctan_zero] at this

/-- Claim C7 counterexample: the input `(1, 0, 1)` has `Z = 1 > 0`, yet the
latitude returned by `ecef_to_lat_lon_alt` is a strictly negative finite
number: the loop's first update flips the sign of `T` (the denominator
`p - c*C^3` is negative for this deep-interior point) and the signed
stopping test then ends the loop immediately. -/
theorem ecef_latitude_sign_flips :
    FP.isNegFin ((ecef_to_lat_lon_alt (fin 1, fin 0, fin 1) true).1) := by
  rw [ecef101_lat_true]
  show FP.atan2R t101 e1W * (180 / Real.pi) < 0
  have hpi : (0:ℝ) < 180 / Real.pi := by positivity
  exact mul_neg_of_neg_of_pos atan2R_101_neg hpi

/-! # Sign preservation of `ecef_to_lat_lon_alt` away from the axis
(claim C7, amended part for the main solver).  When the cylindrical radius
exceeds `c = 42697.67...` m the loop's denominator `p - c*C^3` stays
positive, so every iterate keeps the sign of `Z`. -/

theorem cW_pos : (0 : ℝ) < cW := by norm_num [cW]

theorem e1W_pos : (0 : ℝ) < e1W := by norm_num [e1W]

theorem ecefStep_den_pos {pr t : ℝ} (hp : cW < pr) :
    0 < pr - cW * (1 / Real.sqrt (1 + t * t) * (1 / Real.sqrt (1 + t * t)) *
      (1 / Real.sqrt (1 + t * t))) := by
  have hq : (0:ℝ) < 1 + t * t := by nlinarith [sq_nonneg t, sq_nonneg (t - 1)]
  have h1 : (1:ℝ) ≤ Real.sqrt (1 + t * t) := by
    rw [Real.one_le_sqrt]
    nlinarith [sq_nonneg t]
  have hcr : (0:ℝ) < 1 / Real.sqrt (1 + t * t) := by positivity
  have hle : 1 / Real.sqrt (1 + t * t) ≤ 1 := by
    rw [div_le_one (by linarith)]
    exact h1
  have hcube : 1 / Real.sqrt (1 + t * t) * (1 / Real.sqrt (1 + t * t)) *
      (1 / Real.sqrt (1 + t * t)) ≤ 1 := by nlinarith
  nlinarith [cW_pos]

theorem ecefStep_sign_pos {pr zr t : ℝ} (hp : cW < pr) (hz : 0 < zr) (ht : 0 < t) :
    ∃ u, ecefStep (fin pr) (fin zr) (fin t) = fin u ∧ 0 < u := by
  have hq : (0:ℝ) < 1 + t * t := by nlinarith [sq_nonneg t]
  rw [ecefStep]
  simp only [mul_fin_fin, add_fin_fin]
  rw [powNegHalf_fin_of_pos hq]
  simp only [mul_fin_fin, add_fin_fin, sub_fin_fin]
  have hden := ecefStep_den_pos (t := t) hp
  rw [div_fin_fin hden.ne']
  refine ⟨_, rfl, ?_⟩
  have hcr : (0:ℝ) < 1 / Real.sqrt (1 + t * t) := by
    have := Real.sqrt_pos.2 hq
    positivity
  have hnum : 0 < e1W * zr + cW * (1 / Real.sqrt (1 + t * t) * t *
      (1 / Real.sqrt (1 + t * t) * t) * (1 / Real.sqrt (1 + t * t) * t)) := by
    have h1 : (0:ℝ) < e1W * zr := mul_pos e1W_pos hz
    have h2 : (0:ℝ) < 1 / Real.sqrt (1 + t * t) * t := mul_pos hcr ht
    have h3 := mul_pos cW_pos (mul_pos (mul_pos h2 h2) h2)
    linarith
  exact div_pos hnum hden

theorem ecefStep_sign_neg {pr zr t : ℝ} (hp : cW < pr) (hz : zr < 0) (ht : t < 0) :
    ∃ u, ecefStep (fin pr) (fin zr) (fin t) = fin u ∧ u < 0 := by
  have hq : (0:ℝ) < 1 + t * t := by nlinarith [sq_nonneg t]
  rw [ecefStep]
  simp only [mul_fin_fin, add_fin_fin]
  rw [powNegHalf_fin_of_pos hq]
  simp only [mul_fin_fin, add_fin_fin, sub_fin_fin]
  have hden := ecefStep_den_pos (t := t) hp
  rw [div_fin_fin hden.ne']
  refine ⟨_, rfl, ?_⟩
  have hcr : (0:ℝ) < 1 / Real.sqrt (1 + t * t) := by
    have := Real.sqrt_pos.2 hq
    positivity
  have hnum : e1W * zr + cW * (1 / Real.sqrt (1 + t * t) * t *
      (1 / Real.sqrt (1 + t * t) * t) * (1 / Real.sqrt (1 + t * t) * t)) < 0 := by
    have h1 : e1W * zr < 0 := mul_neg_of_pos_of_neg e1W_pos hz
    have h2 : 1 / Real.sqrt (1 + t * t) * t < 0 := mul_neg_of_pos_of_neg hcr ht
    have h3 : cW * (1 / Real.sqrt (1 + t * t) * t * (1 / Real.sqrt (1 + t * t) * t) *
        (1 / Real.sqrt (1 + t * t) * t)) < 0 := by
      have hcube : 1 / Real.sqrt (1 + t * t) * t * (1 / Real.sqrt (1 + t * t) * t) *
          (1 / Real.sqrt (1 + t * t) * t) < 0 :=
        mul_neg_of_pos_of_neg (mul_pos_of_neg_of_neg h2 h2) h2
      exact mul_neg_of_pos_of_neg cW_pos hcube
    linarith
  exact div_neg_of_neg_of_pos hnum hden

theorem bowLoop_sign_pos {pr zr : ℝ} (hp : cW < pr) (hz : 0 < zr) :
    ∀ n t, 0 < t → ∃ u, bowLoop (fin pr) (fin zr) n (fin t) = fin u ∧ 0 < u := by
  intro n
  induction n with
  | zero => intro t ht; exact ⟨t, rfl, ht⟩
  | succ n ih =>
    intro t ht
    obtain ⟨u, hu, hupos⟩ := ecefStep_sign_pos hp hz ht
    rw [bowLoop_succ, hu]
    split_ifs with hcond
    · exact ⟨u, rfl, hupos⟩
    · exact ih u hupos

theorem bowLoop_sign_neg {pr zr : ℝ} (hp : cW < pr) (hz : zr < 0) :
    ∀ n t, t < 0 → ∃ u, bowLoop (fin pr) (fin zr) n (fin t) = fin u ∧ u < 0 := by
  intro n
  induction n with
  | zero => intro t ht; exact ⟨t, rfl, ht⟩
  | succ n ih =>
    intro t ht
    obtain ⟨u, hu, huneg⟩ := ecefStep_sign_neg hp hz ht
    rw [bowLoop_succ, hu]
    split_ifs with hcond
    · exact ⟨u, rfl, huneg⟩
    · exact ih u huneg

theorem atan2R_pos_of_pos {y x : ℝ} (hy : 0 < y) : 0 < FP.atan2R y x := by
  rw [FP.atan2R]
  split_ifs with h1 h2 h3
  · have harg : (0:ℝ) < y / x := div_pos hy h1
    have := Real.arctan_strictMono harg
    rwa [Real.arctan_zero] at this
  · have hb := Real.neg_pi_div_two_lt_arctan (y / x)
    have hpi := Real.pi_pos
    linarith
  · linarith
  · linarith [Real.pi_pos]

theorem atan2R_neg_of_neg {y x : ℝ} (hy : y < 0) : FP.atan2R y x < 0 := by
  rw [FP.atan2R]
  split_ifs with h1 h2 h3
  · have harg : y / x < 0 := div_neg_of_neg_of_pos hy h1
    have := Real.arctan_strictMono harg
    rwa [Real.arctan_zero] at this
  · linarith
  · have hb := Real.arctan_lt_pi_div_two (y / x)
    have hpi := Real.pi_pos
    linarith
  · linarith [Real.pi_pos]
  · linarith [Real.pi_pos]

/-- Sign preservation for the main solver (used by the claim C7 theorem):
for every finite input with cylindrical radius `p > c` (which includes
every point at realistic distance from the Earth's axis; `c ≈ 42.7 km`)
and `Z ≠ 0`, the returned latitude is finite and has the sign of `Z`. -/
theorem ecef_sign_of_large_p (x y z : ℝ) (deg : Bool)
    (hp : cW < Real.sqrt (x * x + y * y)) (hz : z ≠ 0) :
    (0 < z → FP.isPosFin ((ecef_to_lat_lon_alt (fin x, fin y, fin z) deg).1)) ∧
    (z < 0 → FP.isNegFin ((ecef_to_lat_lon_alt (fin x, fin y, fin z) deg).1)) := by
  have hpr : (0:ℝ) < Real.sqrt (x * x + y * y) := lt_trans cW_pos hp
  have hpfin : FP.sqrt (fin x * fin x + fin y * fin y) =
      fin (Real.sqrt (x * x + y * y)) := by
    simp only [mul_fin_fin, add_fin_fin]
    exact sqrt_fin_of_nonneg (by nlinarith [mul_self_nonneg x, mul_self_nonneg y])
  have hdenom : e1W * Real.sqrt (x * x + y * y) ≠ 0 :=
    (mul_pos e1W_pos hpr).ne'
  have hT0 : FP.orElse (fin z / (fin e1W * fin (Real.sqrt (x * x + y * y))))
      (fin 1) = fin (z / (e1W * Real.sqrt (x * x + y * y))) := by
    rw [mul_fin_fin, div_fin_fin hdenom]
    exact orElse_of_ne (by simp [div_ne_zero hz hdenom]) _
  have hshow : ecef_to_lat_lon_alt (fin x, fin y, fin z) deg =
      ecefOut (fin x) (fin y) (fin z) deg (fin (Real.sqrt (x * x + y * y)))
        (bowLoop (fin (Real.sqrt (x * x + y * y))) (fin z) 10
          (fin (z / (e1W * Real.sqrt (x * x + y * y))))) := by
    show ecefOut (fin x) (fin y) (fin z) deg
        (FP.sqrt (fin x * fin x + fin y * fin y))
        (bowLoop (FP.sqrt (fin x * fin x + fin y * fin y)) (fin z) 10
          (FP.orElse (fin z / (fin e1W * FP.sqrt (fin x * fin x + fin y * fin y)))
            (fin 1))) = _
    rw [hpfin, hT0]
  rw [hshow]
  constructor
  · intro h0
    have ht0 : 0 < z / (e1W * Real.sqrt (x * x + y * y)) :=
      div_pos h0 (mul_pos e1W_pos hpr)
    obtain ⟨u, hu, hupos⟩ := bowLoop_sign_pos hp h0 10 _ ht0
    rw [hu]
    have hlat : 0 < FP.atan2R u e1W := by
      rw [atan2R_of_pos e1W_pos]
      have harg : 0 < u / e1W := div_pos hupos e1W_pos
      have := Real.arctan_strictMono harg
      rwa [Real.arctan_zero] at this
    cases deg
    · exact hlat
    · show 0 < FP.atan2R u e1W * (180 / Real.pi)
      have : (0:ℝ) < 180 / Real.pi := by positivity
      positivity
  · intro h0
    have ht0 : z / (e1W * Real.sqrt (x * x + y * y)) < 0 :=
      div_neg_of_neg_of_pos h0 (mul_pos e1W_pos hpr)
    obtain ⟨u, hu, huneg⟩ := bowLoop_sign_neg hp h0 10 _ ht0
    rw [hu]
    have hlat : FP.atan2R u e1W < 0 := by
      rw [atan2R_of_pos e1W_pos]
      have harg : u / e1W < 0 := div_neg_of_neg_of_pos huneg e1W_pos
      have := Real.arctan_strictMono harg
      rwa [Real.arctan_zero] at this
    cases deg
    · exact hlat
    · show FP.atan2R u e1W * (180 / Real.pi) < 0
      have hpi : (0:ℝ) < 180 / Real.pi := by positivity
      exact mul_neg_of_neg_of_pos hlat hpi

/-! # Sign preservation of `ecef_to_lat_lon_alt1` (claim C7, amended part
for the variant solver).  The invariant: through every loop round the `S`
iterate stays a positive finite real or `+inf`, and `C` never becomes NaN
on a path that returns (a NaN would make `delta` NaN and trigger the
recursion instead).  The returned latitude is `sign(Z) * atan2(Sn, e1*Cn)`
with `atan2` evaluating to a value in `(0, π)`, so its sign is `sign(Z)`. -/

theorem bigEA_pos : (0 : ℝ) < bigEA := by
  rw [bigEA]
  norm_num [eW]

theorem e1A_pos : (0 : ℝ) < e1A := by
  rw [e1A]
  rw [Real.sqrt_pos]
  norm_num [eW]

open Classical in
theorem alt1Loop_succ (P Z : FP) (n : ℕ) (S C : FP) :
    alt1Loop P Z (n + 1) S C =
      if alt1Delta P Z S C = nan then none
      else if FP.lt (FP.abs (alt1Delta P Z S C)) (fin 1e-10) ∨ n = 0 then
        some (alt1Sn Z S C, alt1Cn P S C)
      else alt1Loop P Z n (alt1Sn Z S C) (alt1Cn P S C) := rfl

/-- One returning round of the loop preserves the invariant. -/
theorem alt1_round {pr zr : ℝ} (hP : 0 ≤ pr) (hZ : 0 < zr) (S C : FP)
    (hS : posOrPinf S) (hC : C ≠ nan)
    (hdelta : alt1Delta (fin pr) (fin zr) S C ≠ nan) :
    posOrPinf (alt1Sn (fin zr) S C) ∧ alt1Cn (fin pr) S C ≠ nan ∧
      ((alt1Cn (fin pr) S C = pinf ∨ alt1Cn (fin pr) S C = ninf) →
        alt1Sn (fin zr) S C = pinf) := by
  have hEA := bigEA_pos
  rcases hS with ⟨s, rfl, hs⟩ | rfl
  · cases C with
    | fin cc =>
      have hA : alt1A (fin s) (fin cc) = fin (Real.sqrt (s * s + cc * cc)) := by
        rw [alt1A]
        simp only [mul_fin_fin, add_fin_fin]
        exact sqrt_fin_of_nonneg (by nlinarith [mul_self_nonneg s, mul_self_nonneg cc])
      have harn : 0 ≤ Real.sqrt (s * s + cc * cc) := Real.sqrt_nonneg _
      have hCn : alt1Cn (fin pr) (fin s) (fin cc) =
          fin (pr * (Real.sqrt (s * s + cc * cc) * Real.sqrt (s * s + cc * cc) *
            Real.sqrt (s * s + cc * cc)) - bigEA * (cc * cc * cc)) := by
        rw [alt1Cn, hA]
        simp only [mul_fin_fin, sub_fin_fin]
      have hSn : alt1Sn (fin zr) (fin s) (fin cc) =
          fin (zr * (Real.sqrt (s * s + cc * cc) * Real.sqrt (s * s + cc * cc) *
            Real.sqrt (s * s + cc * cc)) + bigEA * (s * s * s)) := by
        rw [alt1Sn, hA]
        simp only [mul_fin_fin, add_fin_fin]
      refine ⟨Or.inl ⟨_, hSn, ?_⟩, ?_, ?_⟩
      · have h1 : 0 ≤ zr * (Real.sqrt (s * s + cc * cc) * Real.sqrt (s * s + cc * cc) *
            Real.sqrt (s * s + cc * cc)) := by positivity
        have h2 : 0 < bigEA * (s * s * s) :=
          mul_pos hEA (mul_pos (mul_pos hs hs) hs)
        linarith
      · rw [hCn]
        simp
      · intro h
        rcases h with h | h <;> rw [hCn] at h <;> simp at h
    | pinf =>
      have hA : alt1A (fin s) pinf = pinf := by
        rw [alt1A]
        simp
      have hCn : alt1Cn (fin pr) (fin s) pinf = nan := by
        rw [alt1Cn, hA]
        rcases eq_or_lt_of_le hP with h0 | h0
        · rw [← h0]
          simp [fin_mul_pinf_of_pos hEA]
        · simp [fin_mul_pinf_of_pos hEA, fin_mul_pinf_of_pos h0]
      rw [alt1Delta, hCn] at hdelta
      simp at hdelta
    | ninf =>
      have hA : alt1A (fin s) ninf = pinf := by
        rw [alt1A]
        simp
      rcases eq_or_lt_of_le hP with h0 | h0
      · have hCn : alt1Cn (fin pr) (fin s) ninf = nan := by
          rw [alt1Cn, hA, ← h0]
          simp [fin_mul_ninf_of_pos hEA]
        rw [alt1Delta, hCn] at hdelta
        simp at hdelta
      · have hCn : alt1Cn (fin pr) (fin s) ninf = pinf := by
          rw [alt1Cn, hA]
          simp [fin_mul_pinf_of_pos h0, fin_mul_ninf_of_pos hEA]
        have hSn : alt1Sn (fin zr) (fin s) ninf = pinf := by
          rw [alt1Sn, hA]
          simp [fin_mul_pinf_of_pos hZ]
        exact ⟨Or.inr hSn, by rw [hCn]; simp, fun _ => hSn⟩
    | nan => exact absurd rfl hC
  · cases C with
    | fin cc =>
      have hA : alt1A pinf (fin cc) = pinf := by
        rw [alt1A]
        simp
      rcases eq_or_lt_of_le hP with h0 | h0
      · have hCn : alt1Cn (fin pr) pinf (fin cc) = nan := by
          rw [alt1Cn, hA, ← h0]
          simp
        rw [alt1Delta, hCn] at hdelta
        simp at hdelta
      · have hCn : alt1Cn (fin pr) pinf (fin cc) = pinf := by
          rw [alt1Cn, hA]
          simp [fin_mul_pinf_of_pos h0]
        have hSn : alt1Sn (fin zr) pinf (fin cc) = pinf := by
          rw [alt1Sn, hA]
          simp [fin_mul_pinf_of_pos hZ, fin_mul_pinf_of_pos hEA]
        exact ⟨Or.inr hSn, by rw [hCn]; simp, fun _ => hSn⟩
    | pinf =>
      have hA : alt1A pinf pinf = pinf := by
        rw [alt1A]
        simp
      have hCn : alt1Cn (fin pr) pinf pinf = nan := by
        rw [alt1Cn, hA]
        rcases eq_or_lt_of_le hP with h0 | h0
        · rw [← h0]
          simp [fin_mul_pinf_of_pos hEA]
        · simp [fin_mul_pinf_of_pos hEA, fin_mul_pinf_of_pos h0]
      rw [alt1Delta, hCn] at hdelta
      simp at hdelta
    | ninf =>
      have hA : alt1A pinf ninf = pinf := by
        rw [alt1A]
        simp
      rcases eq_or_lt_of_le hP with h0 | h0
      · have hCn : alt1Cn (fin pr) pinf ninf = nan := by
          rw [alt1Cn, hA, ← h0]
          simp [fin_mul_ninf_of_pos hEA]
        rw [alt1Delta, hCn] at hdelta
        simp at hdelta
      · have hCn : alt1Cn (fin pr) pinf ninf = pinf := by
          rw [alt1Cn, hA]
          simp [fin_mul_pinf_of_pos h0, fin_mul_ninf_of_pos hEA]
        have hSn : alt1Sn (fin zr) pinf ninf = pinf := by
          rw [alt1Sn, hA]
          simp [fin_mul_pinf_of_pos hZ, fin_mul_pinf_of_pos hEA]
        exact ⟨Or.inr hSn, by rw [hCn]; simp, fun _ => hSn⟩
    | nan => exact absurd rfl hC

/-- The loop invariant: if the loop returns `(Sn, Cn)` from a state
satisfying the invariant, then `Sn` is positive-or-`+inf`, `Cn` is not NaN,
and an infinite `Cn` forces `Sn = +inf`. -/
theorem alt1Loop_inv {pr zr : ℝ} (hP : 0 ≤ pr) (hZ : 0 < zr) :
    ∀ n (S C Sn Cn : FP), posOrPinf S → C ≠ nan →
      alt1Loop (fin pr) (fin zr) n S C = some (Sn, Cn) →
      posOrPinf Sn ∧ Cn ≠ nan ∧ ((Cn = pinf ∨ Cn = ninf) → Sn = pinf) := by
  intro n
  induction n with
  | zero =>
    intro S C Sn Cn _ _ h
    exact absurd h (by rw [alt1Loop]; simp)
  | succ n ih =>
    intro S C Sn Cn hS hC h
    rw [alt1Loop_succ] at h
    split_ifs at h with hd hb
    · have hpair := Option.some.inj h
      have h1 : alt1Sn (fin zr) S C = Sn := congrArg Prod.fst hpair
      have h2 : alt1Cn (fin pr) S C = Cn := congrArg Prod.snd hpair
      rw [← h1, ← h2]
      exact alt1_round hP hZ S C hS hC hd
    · obtain ⟨hS2, hC2, _⟩ := alt1_round hP hZ S C hS hC hd
      exact ih _ _ _ _ hS2 hC2 h

theorem aW_pos : (0 : ℝ) < aW := by norm_num [aW]

theorem orElse_fin_ne_nan (w : ℝ) : FP.orElse (fin w) (fin 1) ≠ nan := by
  rw [FP.orElse]
  split_ifs <;> simp

/-- The returned latitude of `ecef_to_lat_lon_alt1` is
`sign(Z) * atan2(Sn, e1*Cn)`; under the loop invariant the `atan2` value
lies in `(0, π)`, so the sign of the latitude is the sign of `Z`. -/
theorem alt1_out_sign {x y z : ℝ} {Sn Cn : FP}
    (hSn : posOrPinf Sn) (hCn : Cn ≠ nan)
    (hinf : (Cn = pinf ∨ Cn = ninf) → Sn = pinf) (deg : Bool) :
    (0 < z → FP.isPosFin ((alt1Out (fin x, fin y, fin z) deg Sn Cn).1)) ∧
    (z < 0 → FP.isNegFin ((alt1Out (fin x, fin y, fin z) deg Sn Cn).1)) := by
  obtain ⟨q, hq, hqpos⟩ : ∃ q, FP.atan2 Sn (fin e1A * Cn) = fin q ∧ 0 < q := by
    cases Cn with
    | fin w =>
      rcases hSn with ⟨s, rfl, hs⟩ | rfl
      · refine ⟨FP.atan2R s (e1A * w), ?_, atan2R_pos_of_pos hs⟩
        rw [mul_fin_fin]
        rfl
      · refine ⟨Real.pi / 2, ?_, by linarith [Real.pi_pos]⟩
        rw [mul_fin_fin]
        rfl
    | pinf =>
      have hS := hinf (Or.inl rfl)
      refine ⟨Real.pi / 4, ?_, by linarith [Real.pi_pos]⟩
      rw [hS, fin_mul_pinf_of_pos e1A_pos]
      rfl
    | ninf =>
      have hS := hinf (Or.inr rfl)
      refine ⟨3 * Real.pi / 4, ?_, by linarith [Real.pi_pos]⟩
      rw [hS, fin_mul_ninf_of_pos e1A_pos]
      rfl
    | nan => exact absurd rfl hCn
  have hout1 : (alt1Out (fin x, fin y, fin z) false Sn Cn).1 =
      FP.sign (fin z) * FP.atan2 Sn (fin e1A * Cn) := rfl
  have hout2 : (alt1Out (fin x, fin y, fin z) true Sn Cn).1 =
      FP.degrees (FP.sign (fin z) * FP.atan2 Sn (fin e1A * Cn)) := rfl
  have hpi : (0:ℝ) < 180 / Real.pi := by positivity
  constructor
  · intro h0
    cases deg
    · rw [hout1, sign_fin_of_pos h0, hq, mul_fin_fin]
      show 0 < 1 * q
      linarith
    · rw [hout2, sign_fin_of_pos h0, hq, mul_fin_fin, degrees_fin]
      show 0 < 1 * q * (180 / Real.pi)
      have : (0:ℝ) < 1 * q := by linarith
      positivity
  · intro h0
    cases deg
    · rw [hout1, sign_fin_of_neg h0, hq, mul_fin_fin]
      show -1 * q < 0
      linarith
    · rw [hout2, sign_fin_of_neg h0, hq, mul_fin_fin, degrees_fin]
      show -1 * q * (180 / Real.pi) < 0
      nlinarith

/-- `alt1Body` on a finite input, with the setup quantities evaluated:
`P = sqrt(x^2+y^2)/a`, `Z = e1*|z|/a` and the two truthiness-guarded
seeds. -/
theorem alt1Body_fin (x y z : ℝ) :
    alt1Body (fin x, fin y, fin z) =
      alt1Loop (fin (Real.sqrt (x * x + y * y) / aW)) (fin (e1A * |z| / aW)) 5
        (FP.orElse (fin (e1A * |z| / aW)) (fin 1))
        (FP.orElse (fin (e1A * (Real.sqrt (x * x + y * y) / aW))) (fin 1)) := by
  rw [alt1Body]
  have hp : FP.sqrt (fin x * fin x + fin y * fin y) =
      fin (Real.sqrt (x * x + y * y)) := by
    simp only [mul_fin_fin, add_fin_fin]
    exact sqrt_fin_of_nonneg (by nlinarith [mul_self_nonneg x, mul_self_nonneg y])
  rw [hp]
  rw [abs_fin, mul_fin_fin, div_fin_fin aW_pos.ne', div_fin_fin aW_pos.ne',
    mul_fin_fin]

/-- The one-step unfolding of the fueled `ecef_to_lat_lon_alt1`. -/
theorem ecef_to_lat_lon_alt1_succ (fuel : ℕ) (R : FP × FP × FP) (deg : Bool) :
    ecef_to_lat_lon_alt1 (fuel + 1) R deg =
      match alt1Body R with
      | none => ecef_to_lat_lon_alt1 fuel R true
      | some (Sn, Cn) => some (alt1Out R deg Sn Cn) := rfl

/-- Claim C7 amended: the hemisphere sign of the returned latitude matches
the sign of `Z` for `ecef_to_lat_lon_alt1` on every finite input with
`Z ≠ 0` on which it returns at all, and for `ecef_to_lat_lon_alt` on every
finite input with `Z ≠ 0` whose cylindrical radius exceeds
`c = 42697.67...` m (all realistic inputs); the original unrestricted claim
is false for `ecef_to_lat_lon_alt`, which flips the sign on deep-interior
points such as `(1, 0, 1)`. -/
theorem latitude_sign_matches_z :
    (∀ fuel deg out (x y z : ℝ), z ≠ 0 →
      ecef_to_lat_lon_alt1 fuel (fin x, fin y, fin z) deg = some out →
      ((0 < z → FP.isPosFin out.1) ∧ (z < 0 → FP.isNegFin out.1))) ∧
    (∀ (x y z : ℝ) deg, cW < Real.sqrt (x * x + y * y) → z ≠ 0 →
      ((0 < z → FP.isPosFin ((ecef_to_lat_lon_alt (fin x, fin y, fin z) deg).1)) ∧
       (z < 0 → FP.isNegFin ((ecef_to_lat_lon_alt (fin x, fin y, fin z) deg).1)))) := by
  constructor
  · intro fuel
    induction fuel with
    | zero =>
      intro deg out x y z hz h
      exact absurd h (by rw [ecef_to_lat_lon_alt1]; simp)
    | succ fuel ih =>
      intro deg out x y z hz h
      rw [ecef_to_lat_lon_alt1_succ] at h
      rcases hbody : alt1Body (fin x, fin y, fin z) with _ | ⟨Sn, Cn⟩
      · rw [hbody] at h
        exact ih true out x y z hz h
      · rw [hbody] at h
        have hout := Option.some.inj h
        rw [alt1Body_fin] at hbody
        have hZpos : 0 < e1A * |z| / aW := by
          have : 0 < |z| := abs_pos.2 hz
          have := e1A_pos
          have := aW_pos
          positivity
        have hPnon : 0 ≤ Real.sqrt (x * x + y * y) / aW := by
          have := Real.sqrt_nonneg (x * x + y * y)
          have := aW_pos
          positivity
        have hS0 : posOrPinf (FP.orElse (fin (e1A * |z| / aW)) (fin 1)) := by
          rw [orElse_of_ne (by simp [hZpos.ne']) _]
          exact Or.inl ⟨_, rfl, hZpos⟩
        have hC0 : FP.orElse (fin (e1A * (Real.sqrt (x * x + y * y) / aW)))
            (fin 1) ≠ nan := orElse_fin_ne_nan _
        obtain ⟨hSn, hCn, hinf⟩ := alt1Loop_inv hPnon hZpos 5 _ _ _ _ hS0 hC0 hbody
        rw [← hout]
        exact alt1_out_sign hSn hCn hinf deg
  · intro x y z deg hp hz
    exact ecef_sign_of_large_p x y z deg hp hz

/-! # Evaluation of `ecef_to_lat_lon_alt1` on the engineered input
`(wEx, 0, wEx)`: the first round's `delta` is exactly zero, so the loop
breaks immediately and the function returns. -/

theorem e1A_lt_one : e1A < 1 := by
  rw [e1A]
  rw [Real.sqrt_lt' one_pos]
  norm_num [eW]

theorem one_sub_e1A_pos : 0 < 1 - e1A := by linarith [e1A_lt_one]

theorem sqrt2_pos : (0:ℝ) < Real.sqrt 2 := Real.sqrt_pos.2 (by norm_num)

theorem sqrt2_mul_self : Real.sqrt 2 * Real.sqrt 2 = 2 :=
  Real.mul_self_sqrt (by norm_num)

theorem wEx_pos : 0 < wEx := by
  rw [wEx]
  have h1 := aW_pos
  have h2 := bigEA_pos
  have h3 := sqrt2_pos
  have h4 := one_sub_e1A_pos
  positivity

theorem zcEx_pos : 0 < zcEx := by
  rw [zcEx]
  have := e1A_pos
  have := wEx_pos
  have := aW_pos
  positivity

theorem prEx_eq : prEx = zcEx / e1A := by
  rw [prEx, zcEx]
  field_simp [e1A_pos.ne', aW_pos.ne']
  ring

theorem zc_key : Real.sqrt 2 * zcEx * (1 - e1A) = bigEA * e1A := by
  rw [zcEx, wEx]
  have h1 := aW_pos.ne'
  have h3 := sqrt2_pos.ne'
  have h4 := one_sub_e1A_pos.ne'
  field_simp
  ring

theorem vEx_pos : 0 < vEx := by
  rw [vEx, arEx]
  have hz := zcEx_pos
  have hE := bigEA_pos
  have hs := sqrt2_pos
  positivity

theorem vEx_eq_vcEx : vEx = vcEx := by
  rw [vEx, vcEx, arEx, prEx_eq]
  have he := e1A_pos.ne'
  have hkey := zc_key
  have hs2 := sqrt2_mul_self
  field_simp
  linear_combination (-(2 * zcEx ^ 3)) * hkey +
    (-(zcEx ^ 4 * (1 - e1A) * Real.sqrt 2)) * hs2

theorem alt1A_convIn : alt1A (fin zcEx) (fin zcEx) = fin arEx := by
  rw [alt1A]
  simp only [mul_fin_fin, add_fin_fin]
  have h1 : zcEx * zcEx + zcEx * zcEx = arEx * arEx := by
    rw [arEx]
    linear_combination (-(zcEx * zcEx)) * sqrt2_mul_self
  rw [h1]
  have h2 : 0 ≤ arEx := by
    rw [arEx]
    exact mul_nonneg zcEx_pos.le sqrt2_pos.le
  rw [sqrt_fin_of_nonneg (by nlinarith)]
  rw [Real.sqrt_mul_self h2]

theorem alt1Cn_convIn : alt1Cn (fin prEx) (fin zcEx) (fin zcEx) = fin vcEx := by
  rw [alt1Cn, alt1A_convIn]
  simp only [mul_fin_fin, sub_fin_fin]
  rfl

theorem alt1Sn_convIn : alt1Sn (fin zcEx) (fin zcEx) (fin zcEx) = fin vEx := by
  rw [alt1Sn, alt1A_convIn]
  simp only [mul_fin_fin, add_fin_fin]
  rfl

theorem alt1Delta_convIn :
    alt1Delta (fin prEx) (fin zcEx) (fin zcEx) (fin zcEx) = fin 0 := by
  rw [alt1Delta, alt1Sn_convIn, alt1Cn_convIn]
  rw [← vEx_eq_vcEx]
  rw [div_fin_fin vEx_pos.ne', div_fin_fin zcEx_pos.ne']
  rw [div_self vEx_pos.ne', div_self zcEx_pos.ne']
  rw [sub_fin_fin, abs_fin]
  rw [mul_fin_fin, div_fin_fin zcEx_pos.ne']
  norm_num

theorem alt1Body_convIn :
    alt1Body (fin wEx, fin 0, fin wEx) = some (fin vEx, fin vcEx) := by
  rw [alt1Body_fin]
  have hsq : Real.sqrt (wEx * wEx + 0 * 0) = wEx := by
    rw [show wEx * wEx + 0 * 0 = wEx * wEx by ring]
    exact Real.sqrt_mul_self wEx_pos.le
  rw [hsq, abs_of_pos wEx_pos]
  rw [show e1A * (wEx / aW) = e1A * wEx / aW by ring]
  rw [show e1A * wEx / aW = zcEx from rfl, show wEx / aW = prEx from rfl]
  rw [orElse_of_ne (by simp [zcEx_pos.ne']) _]
  rw [alt1Loop_succ, alt1Delta_convIn]
  rw [if_neg (by simp)]
  rw [if_pos]
  · rw [alt1Sn_convIn, alt1Cn_convIn]
  · left
    rw [abs_fin, lt_fin_fin]
    norm_num

theorem alt1_eval_convIn :
    ecef_to_lat_lon_alt1 1 (fin wEx, fin 0, fin wEx) true =
      some (alt1Out (fin wEx, fin 0, fin wEx) true (fin vEx) (fin vcEx)) := by
  rw [ecef_to_lat_lon_alt1_succ, alt1Body_convIn]

/-! # The NaN fallback recursion of `ecef_to_lat_lon_alt1`
(claims C9, C10) -/

/-- Claim C9: the NaN fallback re-invokes `ecef_to_lat_lon_alt1` on the
exact same input `R` with no changed state, so on any input whose
(deterministic) loop hits `isnan(delta)` — and therefore hits it again in
every invocation — the call never terminates: the fueled model returns
`none` for every amount of fuel and either `deg`. -/
theorem nan_fallback_never_terminates (R : FP × FP × FP)
    (h : alt1Body R = none) :
    ∀ fuel deg, ecef_to_lat_lon_alt1 fuel R deg = none := by
  intro fuel
  induction fuel with
  | zero => intro deg; rfl
  | succ fuel ih =>
    intro deg
    rw [ecef_to_lat_lon_alt1_succ, h]
    exact ih true

/-- Claim C10: the recursive fallback call is `ecef_to_lat_lon_alt1(R)`
with `deg` omitted, so `deg` defaults to `True`: whenever the fallback
fires, the result handed back to a caller who passed `deg=False` is exactly
the result of a `deg=True` invocation — any value produced through this
path would be in degrees although the caller asked for radians. -/
theorem nan_fallback_drops_deg_flag (R : FP × FP × FP) (fuel : ℕ)
    (h : alt1Body R = none) (deg : Bool) :
    ecef_to_lat_lon_alt1 (fuel + 1) R deg = ecef_to_lat_lon_alt1 fuel R true := by
  rw [ecef_to_lat_lon_alt1_succ, h]

/-- On the engineered input `nanIn`, `Cn` is exactly zero after the first
round, so the second round computes `delta = abs(fin - inf) * 0 / S = NaN`
and the fallback fires: `alt1Body` signals the recursion. -/
theorem alt1Body_nanIn :
    alt1Body (fin (aW * bigEA / 8), fin 0, fin (aW * bigEA * Real.sqrt 3 / 8)) =
      none := by
  have hE := bigEA_pos
  have he1 := e1A_pos
  have hs3 : (0:ℝ) < Real.sqrt 3 := Real.sqrt_pos.2 (by norm_num)
  have hs3m : Real.sqrt 3 * Real.sqrt 3 = 3 := Real.mul_self_sqrt (by norm_num)
  have haW := aW_pos
  have hx9 : (0:ℝ) < aW * bigEA / 8 := by positivity
  rw [alt1Body_fin]
  rw [show Real.sqrt (aW * bigEA / 8 * (aW * bigEA / 8) + 0 * 0) =
      aW * bigEA / 8 by
    rw [show aW * bigEA / 8 * (aW * bigEA / 8) + 0 * 0 =
        aW * bigEA / 8 * (aW * bigEA / 8) by ring]
    exact Real.sqrt_mul_self hx9.le]
  rw [abs_of_pos (show (0:ℝ) < aW * bigEA * Real.sqrt 3 / 8 by positivity)]
  rw [show e1A * (aW * bigEA * Real.sqrt 3 / 8) / aW =
      e1A * bigEA * Real.sqrt 3 / 8 by field_simp; ring]
  rw [show aW * bigEA / 8 / aW = bigEA / 8 by field_simp; ring]
  rw [show e1A * (bigEA / 8) = e1A * bigEA / 8 by ring]
  have hZ9 : (0:ℝ) < e1A * bigEA * Real.sqrt 3 / 8 := by positivity
  have hC9 : (0:ℝ) < e1A * bigEA / 8 := by positivity
  rw [orElse_of_ne (x := fin (e1A * bigEA * Real.sqrt 3 / 8)) (by simp [hZ9.ne']) _]
  rw [orElse_of_ne (x := fin (e1A * bigEA / 8)) (by simp [hC9.ne']) _]
  have hA1 : alt1A (fin (e1A * bigEA * Real.sqrt 3 / 8)) (fin (e1A * bigEA / 8)) =
      fin (e1A * bigEA / 4) := by
    rw [alt1A]
    simp only [mul_fin_fin, add_fin_fin]
    rw [show e1A * bigEA * Real.sqrt 3 / 8 * (e1A * bigEA * Real.sqrt 3 / 8) +
        e1A * bigEA / 8 * (e1A * bigEA / 8) =
        e1A * bigEA / 4 * (e1A * bigEA / 4) by
      linear_combination ((e1A * bigEA) ^ 2 / 64) * hs3m]
    rw [sqrt_fin_of_nonneg (by positivity)]
    rw [Real.sqrt_mul_self (by positivity)]
  have hCn1 : alt1Cn (fin (bigEA / 8)) (fin (e1A * bigEA * Real.sqrt 3 / 8))
      (fin (e1A * bigEA / 8)) = fin 0 := by
    rw [alt1Cn, hA1]
    simp only [mul_fin_fin, sub_fin_fin]
    congr 1
    ring
  have hSn1 : alt1Sn (fin (e1A * bigEA * Real.sqrt 3 / 8))
      (fin (e1A * bigEA * Real.sqrt 3 / 8)) (fin (e1A * bigEA / 8)) =
      fin (e1A * bigEA * Real.sqrt 3 / 8 *
          (e1A * bigEA / 4 * (e1A * bigEA / 4) * (e1A * bigEA / 4)) +
        bigEA * (e1A * bigEA * Real.sqrt 3 / 8 * (e1A * bigEA * Real.sqrt 3 / 8) *
          (e1A * bigEA * Real.sqrt 3 / 8))) := by
    rw [alt1Sn, hA1]
    simp only [mul_fin_fin, add_fin_fin]
  have hS9v : (0:ℝ) < e1A * bigEA * Real.sqrt 3 / 8 *
      (e1A * bigEA / 4 * (e1A * bigEA / 4) * (e1A * bigEA / 4)) +
      bigEA * (e1A * bigEA * Real.sqrt 3 / 8 * (e1A * bigEA * Real.sqrt 3 / 8) *
        (e1A * bigEA * Real.sqrt 3 / 8)) := by positivity
  have hdelta1 : alt1Delta (fin (bigEA / 8)) (fin (e1A * bigEA * Real.sqrt 3 / 8))
      (fin (e1A * bigEA * Real.sqrt 3 / 8)) (fin (e1A * bigEA / 8)) = pinf := by
    rw [alt1Delta, hSn1, hCn1]
    rw [fin_div_zero_of_pos hS9v]
    rw [div_fin_fin hC9.ne']
    rw [pinf_sub_fin, abs_pinf]
    rw [pinf_mul_fin_of_pos hC9]
    exact pinf_div_fin_of_nonneg hZ9.le
  rw [alt1Loop_succ, hdelta1]
  rw [if_neg (by simp)]
  rw [if_neg (by simp)]
  rw [hSn1, hCn1]
  have hA2 : alt1A (fin (e1A * bigEA * Real.sqrt 3 / 8 *
      (e1A * bigEA / 4 * (e1A * bigEA / 4) * (e1A * bigEA / 4)) +
      bigEA * (e1A * bigEA * Real.sqrt 3 / 8 * (e1A * bigEA * Real.sqrt 3 / 8) *
        (e1A * bigEA * Real.sqrt 3 / 8)))) (fin 0) =
      fin (e1A * bigEA * Real.sqrt 3 / 8 *
        (e1A * bigEA / 4 * (e1A * bigEA / 4) * (e1A * bigEA / 4)) +
        bigEA * (e1A * bigEA * Real.sqrt 3 / 8 * (e1A * bigEA * Real.sqrt 3 / 8) *
          (e1A * bigEA * Real.sqrt 3 / 8))) := by
    rw [alt1A]
    simp only [mul_fin_fin, add_fin_fin]
    rw [show (e1A * bigEA * Real.sqrt 3 / 8 *
        (e1A * bigEA / 4 * (e1A * bigEA / 4) * (e1A * bigEA / 4)) +
        bigEA * (e1A * bigEA * Real.sqrt 3 / 8 * (e1A * bigEA * Real.sqrt 3 / 8) *
          (e1A * bigEA * Real.sqrt 3 / 8))) *
        (e1A * bigEA * Real.sqrt 3 / 8 *
        (e1A * bigEA / 4 * (e1A * bigEA / 4) * (e1A * bigEA / 4)) +
        bigEA * (e1A * bigEA * Real.sqrt 3 / 8 * (e1A * bigEA * Real.sqrt 3 / 8) *
          (e1A * bigEA * Real.sqrt 3 / 8))) + 0 * 0 =
        (e1A * bigEA * Real.sqrt 3 / 8 *
        (e1A * bigEA / 4 * (e1A * bigEA / 4) * (e1A * bigEA / 4)) +
        bigEA * (e1A * bigEA * Real.sqrt 3 / 8 * (e1A * bigEA * Real.sqrt 3 / 8) *
          (e1A * bigEA * Real.sqrt 3 / 8))) *
        (e1A * bigEA * Real.sqrt 3 / 8 *
        (e1A * bigEA / 4 * (e1A * bigEA / 4) * (e1A * bigEA / 4)) +
        bigEA * (e1A * bigEA * Real.sqrt 3 / 8 * (e1A * bigEA * Real.sqrt 3 / 8) *
          (e1A * bigEA * Real.sqrt 3 / 8))) by ring]
    rw [sqrt_fin_of_nonneg (by positivity)]
    rw [Real.sqrt_mul_self hS9v.le]
  have hCn2pos : (0:ℝ) < bigEA / 8 *
      ((e1A * bigEA * Real.sqrt 3 / 8 *
        (e1A * bigEA / 4 * (e1A * bigEA / 4) * (e1A * bigEA / 4)) +
        bigEA * (e1A * bigEA * Real.sqrt 3 / 8 * (e1A * bigEA * Real.sqrt 3 / 8) *
          (e1A * bigEA * Real.sqrt 3 / 8))) *
       (e1A * bigEA * Real.sqrt 3 / 8 *
        (e1A * bigEA / 4 * (e1A * bigEA / 4) * (e1A * bigEA / 4)) +
        bigEA * (e1A * bigEA * Real.sqrt 3 / 8 * (e1A * bigEA * Real.sqrt 3 / 8) *
          (e1A * bigEA * Real.sqrt 3 / 8))) *
       (e1A * bigEA * Real.sqrt 3 / 8 *
        (e1A * bigEA / 4 * (e1A * bigEA / 4) * (e1A * bigEA / 4)) +
        bigEA * (e1A * bigEA * Real.sqrt 3 / 8 * (e1A * bigEA * Real.sqrt 3 / 8) *
          (e1A * bigEA * Real.sqrt 3 / 8)))) -
      bigEA * (0 * 0 * 0) := by
    have h8 : (0:ℝ) < bigEA / 8 := by positivity
    have := mul_pos h8 (mul_pos (mul_pos hS9v hS9v) hS9v)
    nlinarith
  have hdelta2 : alt1Delta (fin (bigEA / 8)) (fin (e1A * bigEA * Real.sqrt 3 / 8))
      (fin (e1A * bigEA * Real.sqrt 3 / 8 *
        (e1A * bigEA / 4 * (e1A * bigEA / 4) * (e1A * bigEA / 4)) +
        bigEA * (e1A * bigEA * Real.sqrt 3 / 8 * (e1A * bigEA * Real.sqrt 3 / 8) *
          (e1A * bigEA * Real.sqrt 3 / 8)))) (fin 0) = nan := by
    rw [alt1Delta, alt1Sn, alt1Cn, hA2]
    simp only [mul_fin_fin, add_fin_fin, sub_fin_fin]
    rw [div_fin_fin hCn2pos.ne']
    rw [fin_div_zero_of_pos hS9v]
    rw [fin_sub_pinf, abs_ninf]
    rw [pinf_mul_zero]
    exact nan_div _
  rw [alt1Loop_succ, hdelta2]
  rw [if_pos rfl]

/-! # Witnesses -/

/-- Witness for claim C6 (amended): a concrete observer `(1, 0, 1)` whose
geodetic solve yields finite angles, and a concrete non-coincident target
`(2, 0, 1)`; the amended theorem applies and the returned ENU vector has
norm exactly 1. -/
theorem enu_unit_norm_witness :
    (ecef_to_lat_lon_alt (fin 1, fin 0, fin 1) false).1 = fin (FP.atan2R t101 e1W) ∧
    (ecef_to_lat_lon_alt (fin 1, fin 0, fin 1) false).2.1 = fin (FP.atan2R 0 1) ∧
    ¬ ((2:ℝ) - 1 = 0 ∧ (0:ℝ) - 0 = 0 ∧ (1:ℝ) - 1 = 0) ∧
    enuNorm (sat_in_enu (fin 1, fin 0, fin 1) (fin 2, fin 0, fin 1)) = fin 1 := by
  obtain ⟨h1, h2⟩ := ecef101_radians
  exact ⟨h1, h2, by norm_num,
    enu_unit_norm 1 0 1 2 0 1 (FP.atan2R t101 e1W) (FP.atan2R 0 1) h1 h2 (by norm_num)⟩

/-- Witness for claim C7 (amended): `ecef_to_lat_lon_alt1` returns on the
concrete input `(wEx, 0, wEx)` (with `Z = wEx > 0`) and the amended theorem
gives a positive finite latitude there; and `ecef_to_lat_lon_alt` at the
concrete input `(a, 0, 1)` (with `p = a > c` and `Z = 1 > 0`) also gets a
positive finite latitude. -/
theorem latitude_sign_matches_z_witness :
    (wEx ≠ 0 ∧
     ecef_to_lat_lon_alt1 1 (fin wEx, fin 0, fin wEx) true =
       some (alt1Out (fin wEx, fin 0, fin wEx) true (fin vEx) (fin vcEx)) ∧
     FP.isPosFin ((alt1Out (fin wEx, fin 0, fin wEx) true (fin vEx) (fin vcEx)).1)) ∧
    (cW < Real.sqrt (aW * aW + 0 * 0) ∧ (1:ℝ) ≠ 0 ∧
     FP.isPosFin ((ecef_to_lat_lon_alt (fin aW, fin 0, fin 1) true).1)) := by
  have hcw : cW < Real.sqrt (aW * aW + 0 * 0) := by
    rw [show aW * aW + 0 * 0 = aW * aW by ring, Real.sqrt_mul_self aW_pos.le]
    norm_num [cW, aW]
  refine ⟨⟨wEx_pos.ne', alt1_eval_convIn, ?_⟩, hcw, one_ne_zero, ?_⟩
  · exact (latitude_sign_matches_z.1 1 true _ wEx 0 wEx wEx_pos.ne'
      alt1_eval_convIn).1 wEx_pos
  · exact (latitude_sign_matches_z.2 aW 0 1 true hcw one_ne_zero).1 one_pos

/-- Witness for claim C9: the concrete input `nanIn` makes `delta` NaN
(in every invocation, since the recursion re-runs the identical
computation), and the call indeed never returns — here instantiated at
fuel 3 with `deg = False`. -/
theorem nan_fallback_never_terminates_witness :
    alt1Body (fin (aW * bigEA / 8), fin 0, fin (aW * bigEA * Real.sqrt 3 / 8)) =
      none ∧
    ecef_to_lat_lon_alt1 3
      (fin (aW * bigEA / 8), fin 0, fin (aW * bigEA * Real.sqrt 3 / 8)) false =
      none :=
  ⟨alt1Body_nanIn, nan_fallback_never_terminates _ alt1Body_nanIn 3 false⟩

/-- Witness for claim C10: on the concrete input `nanIn` the fallback fires
and the `deg=False` call is exactly the `deg=True` call one recursion
level down. -/
theorem nan_fallback_drops_deg_flag_witness :
    alt1Body (fin (aW * bigEA / 8), fin 0, fin (aW * bigEA * Real.sqrt 3 / 8)) =
      none ∧
    ecef_to_lat_lon_alt1 1
      (fin (aW * bigEA / 8), fin 0, fin (aW * bigEA * Real.sqrt 3 / 8)) false =
      ecef_to_lat_lon_alt1 0
        (fin (aW * bigEA / 8), fin 0, fin (aW * bigEA * Real.sqrt 3 / 8)) true :=
  ⟨alt1Body_nanIn, nan_fallback_drops_deg_flag _ 0 alt1Body_nanIn false⟩

end Ecef
